import Mathlib

/-!
Verification development for the consciousness-scoring core: the IIT phi
calculator (repertoires, bounded bipartition search, integration scoring)
and the cryptographic proof-chain verifier (canonical hashing, HMAC
signing, Merkle accumulation, chain verification, transactional import).

Modelling conventions, stated once:
* JavaScript floating-point numbers are modelled as real numbers; the
  numeric tolerances quoted by the specification hold exactly in this model.
* Clock reads (Date.now, performance.now) and fresh uuid values are explicit
  inputs, so every operation is a pure function of its inputs.
* Cryptographic digests are modelled ideally: a digest is a free constructor
  applied to the digested payload, so two digests are equal exactly when the
  digested payloads are equal (collision-freeness idealisation).
* Bitwise operations follow JavaScript semantics: shift counts are taken
  modulo 32, which matters for the bipartition mask test once n exceeds 32.
-/

open Classical

namespace SC

/-! ## IIT phi calculator (source file IITPhiCalculator) -/

namespace IIT

/-- SystemState: activation vector, connection matrix, timestep. -/
structure SystemState where
  elements : List ℝ
  connections : List (List ℝ)
  timeStep : ℝ

/-- Element access: elements[j]; loop indices stay in range in the source,
out-of-range reads default to 0. -/
noncomputable def elem (s : SystemState) (j : Nat) : ℝ := s.elements.getD j 0

/-- Connection access: the source guards with (connections[j] && connections[j][i]),
skipping missing rows, missing entries and zero entries; skipping a term equals
adding 0, so a defaulted read is an exact model. -/
noncomputable def conn (s : SystemState) (j i : Nat) : ℝ :=
  (s.connections.getD j []).getD i 0

/-- sigmoid(x) = 1 / (1 + e^(-x)). -/
noncomputable def sigmoid (x : ℝ) : ℝ := 1 / (1 + Real.exp (-x))

/-- normalizeDistribution: L1-normalise by absolute values; an all-zero sum
yields the uniform value 1 / max(length, 1) at every position. -/
noncomputable def normalizeDistribution (dist : List ℝ) : List ℝ :=
  let sum := (dist.map (fun b => |b|)).sum
  if sum = 0 then dist.map (fun _ => 1 / ((max dist.length 1 : ℕ) : ℝ))
  else dist.map (fun v => |v| / sum)

/-- calculateCauseRepertoire: incoming influence per index, sigmoid, normalise. -/
noncomputable def calculateCauseRepertoire (state : SystemState) : List ℝ :=
  let n := state.elements.length
  normalizeDistribution ((List.range n).map (fun i =>
    sigmoid ((((List.range n).map (fun j => conn state j i * elem state j)).sum) /
      ((max n 1 : ℕ) : ℝ))))

/-- calculateEffectRepertoire: outgoing influence per index, sigmoid, normalise. -/
noncomputable def calculateEffectRepertoire (state : SystemState) : List ℝ :=
  let n := state.elements.length
  normalizeDistribution ((List.range n).map (fun i =>
    sigmoid ((((List.range n).map (fun j => conn state i j * elem state i)).sum) /
      ((max n 1 : ℕ) : ℝ))))

/-- MAX_PARTITION_DEPTH. -/
def MAX_PARTITION_DEPTH : Nat := 6

/-- generateBipartitions: iterate a mask i from 1 to min(2^(n-1), 2^6) - 1.
The JavaScript test (i & (1 << j)) wraps the shift count modulo 32, so index j
is assigned to partition1 exactly when bit (j mod 32) of the mask is set.
For n = 0 the JavaScript bound is 0.5 and the loop body never runs; with
natural subtraction the bound below is 1 and the loop body never runs either. -/
def generateBipartitions (n : Nat) : List (List (List Nat)) :=
  let maxCombinations := min (2 ^ (n - 1)) (2 ^ MAX_PARTITION_DEPTH)
  (List.range' 1 (maxCombinations - 1)).filterMap (fun i =>
    let partition1 := (List.range n).filter (fun j => i.testBit (j % 32))
    let partition2 := (List.range n).filter (fun j => !(i.testBit (j % 32)))
    if partition1.length > 0 ∧ partition2.length > 0 then
      some [partition1, partition2]
    else none)

/-- getPartitionedDistribution: damp each retained component by
(1 - otherInfluence * 0.5) for every other part, then renormalise.
The source compares parts by object identity; the two parts of any enumerated
bipartition are disjoint and non-empty, hence never structurally equal, so
structural inequality is a faithful model of the identity test. -/
noncomputable def getPartitionedDistribution (fullDistribution : List ℝ)
    (currentPart : List Nat) (allPartitions : List (List Nat)) : List ℝ :=
  normalizeDistribution (currentPart.map (fun idx =>
    (allPartitions.filter (fun otherPart => otherPart ≠ currentPart)).foldl
      (fun marginalProb otherPart =>
        let otherInfluence :=
          (otherPart.map (fun i => fullDistribution.getD i 0)).sum /
            ((max otherPart.length 1 : ℕ) : ℝ)
        marginalProb * (1 - otherInfluence * 0.5))
      (fullDistribution.getD idx 0)))

/-- calculateEMD: cumulative running difference, summed in absolute value;
mismatched lengths compare the two totals instead. -/
noncomputable def calculateEMD (dist1 dist2 : List ℝ) : ℝ :=
  if dist1.length ≠ dist2.length then
    |dist1.sum - dist2.sum|
  else
    ((dist1.zip dist2).foldl
      (fun (acc : ℝ × ℝ) p =>
        let cumDiff := acc.2 + (p.1 - p.2)
        (acc.1 + |cumDiff|, cumDiff)) (0, 0)).1

/-- calculatePartitionPhi: cause loss plus effect loss, summed over parts.
The state parameter is unused in the source body as well. -/
noncomputable def calculatePartitionPhi (_state : SystemState)
    (partition : List (List Nat)) (causeRepertoire effectRepertoire : List ℝ) : ℝ :=
  (partition.map (fun part =>
    let partCause := part.map (fun i => causeRepertoire.getD i 0)
    let partEffect := part.map (fun i => effectRepertoire.getD i 0)
    calculateEMD partCause (getPartitionedDistribution causeRepertoire part partition) +
      calculateEMD partEffect (getPartitionedDistribution effectRepertoire part partition))).sum

/-- PartitionInfo record. -/
structure PartitionInfo where
  minimumInformationPartition : List (List Nat)
  partitionPhi : ℝ
  numPartitions : Nat
  integrationLevel : ℝ

/-- calculateIntegrationLevel: max(0.1, 1 - sqrt(variance of part sizes)/n). -/
noncomputable def calculateIntegrationLevel (partition : List (List Nat))
    (totalElements : Nat) : ℝ :=
  if partition.length ≤ 1 then 1
  else
    let sizes := partition.map (fun p => (p.length : ℝ))
    let avgSize := (totalElements : ℝ) / partition.length
    let variance := (sizes.map (fun s => (s - avgSize) ^ 2)).sum / (sizes.length : ℝ)
    max 0.1 (1 - Real.sqrt variance / totalElements)

/-- findMinimumInformationPartition: fold over the enumerated bipartitions
tracking the strictly smallest loss; the accumulator none stands for the
JavaScript initial Infinity, under which the first candidate always wins
and an empty enumeration leaves partitionPhi at 0. -/
noncomputable def findMinimumInformationPartition (state : SystemState)
    (causeRepertoire effectRepertoire : List ℝ) : PartitionInfo :=
  let n := state.elements.length
  let partitions := generateBipartitions n
  let best := partitions.foldl
    (fun (acc : Option ℝ × List (List Nat)) partition =>
      if partition.length < 2 then acc
      else
        let partitionPhi := calculatePartitionPhi state partition causeRepertoire effectRepertoire
        match acc.1 with
        | none => (some partitionPhi, partition)
        | some minPhi =>
          if partitionPhi < minPhi then (some partitionPhi, partition) else acc)
    (none, [List.range n])
  { minimumInformationPartition := best.2,
    partitionPhi := match best.1 with | none => 0 | some m => m,
    numPartitions := best.2.length,
    integrationLevel := calculateIntegrationLevel best.2 n }

/-- EPSILON floor 1e-10 used by the mutual-information estimator. -/
noncomputable def EPS10 : ℝ := 1 / 10 ^ 10

/-- calculateMutualInformation: the non-standard estimator of the source,
with the 1e-10 floors and a final absolute value. -/
noncomputable def calculateMutualInformation (dist1 dist2 : List ℝ) : ℝ :=
  let n := min dist1.length dist2.length
  |((List.range n).map (fun i =>
    let p1 := max (dist1.getD i 0) EPS10
    let p2 := max (dist2.getD i 0) EPS10
    let joint := (p1 + p2) / 2
    if joint > 0 then joint * Real.logb 2 (joint / (p1 * p2 + EPS10)) else 0)).sum|

/-- calculateIntegratedInformation: whole-system estimator minus the sum of the
per-part estimators on the raw sub-distributions, floored at 0. -/
noncomputable def calculateIntegratedInformation (_state : SystemState)
    (causeRepertoire effectRepertoire : List ℝ) (partitionInfo : PartitionInfo) : ℝ :=
  let wholeInfo := calculateMutualInformation causeRepertoire effectRepertoire
  let partitionInfoValue := (partitionInfo.minimumInformationPartition.map (fun part =>
    calculateMutualInformation (part.map (fun i => causeRepertoire.getD i 0))
      (part.map (fun i => effectRepertoire.getD i 0)))).sum
  max 0 (wholeInfo - partitionInfoValue)

/-- computePhiValue: clamp(0, integratedInformation * integrationLevel * 10, 15). -/
noncomputable def computePhiValue (integratedInformation : ℝ)
    (partitionInfo : PartitionInfo) : ℝ :=
  let rawPhi := integratedInformation * partitionInfo.integrationLevel
  let scaledPhi := min 15 (rawPhi * 10)
  max 0 scaledPhi

/-- CONSCIOUSNESS_THRESHOLD. -/
noncomputable def CONSCIOUSNESS_THRESHOLD : ℝ := 3

/-- The two performance.now() reads of calculatePhi, passed in explicitly. -/
structure Clock where
  startTime : ℝ
  endTime : ℝ

/-- PhiResult record; consciousnessThreshold is the proposition phi > 3. -/
structure PhiResult where
  phi : ℝ
  integratedInformation : ℝ
  partitionInfo : PartitionInfo
  causeRepertoire : List ℝ
  effectRepertoire : List ℝ
  temporalDepth : ℝ
  consciousnessThreshold : Prop

/-- calculatePhi: the full pipeline. Only temporalDepth reads the clock. -/
noncomputable def calculatePhi (state : SystemState) (clock : Clock) : PhiResult :=
  let causeRepertoire := calculateCauseRepertoire state
  let effectRepertoire := calculateEffectRepertoire state
  let partitionInfo := findMinimumInformationPartition state causeRepertoire effectRepertoire
  let integratedInformation :=
    calculateIntegratedInformation state causeRepertoire effectRepertoire partitionInfo
  let phi := computePhiValue integratedInformation partitionInfo
  { phi := phi,
    integratedInformation := integratedInformation,
    partitionInfo := partitionInfo,
    causeRepertoire := causeRepertoire,
    effectRepertoire := effectRepertoire,
    temporalDepth := clock.endTime - clock.startTime,
    consciousnessThreshold := phi > CONSCIOUSNESS_THRESHOLD }

end IIT

/-! ## Cryptographic verifier (source file CryptographicVerifier)

String and digest values are modelled by the inductive type V: a digest is a
free constructor applied to the digested payload, so equality of modelled
digests coincides with equality of the digested payloads (ideal, collision-free
hashing); distinct constructor shapes model distinct strings. -/

namespace Crypto

/-- Value model for metadata payloads and hash strings: number, string and
boolean scalars, arrays, objects, and the string-producing operations used by
the source (SHA-256 digest, HMAC digest, substring truncation, concatenation,
comma-join of an array). -/
inductive V where
  | litStr : String → V
  | num : ℝ → V
  | vbool : Bool → V
  | arr : List V → V
  | obj : List (String × V) → V
  | sha256 : V → V
  | hmacSha256 : V → V → V
  | strTake : Nat → V → V
  | strAppend : V → V → V
  | joinComma : List V → V

/-- JavaScript property read fields[key]: first binding wins. -/
def findField (fields : List (String × V)) (key : String) : Option (String × V) :=
  fields.find? (fun kv => kv.1 = key)

/-- JavaScript property write on an object value: overwrite in place when the
key exists, append otherwise (the semantics of object spread assignment). -/
def setField : List (String × V) → String → V → List (String × V)
  | [], key, v => [(key, v)]
  | (k0, v0) :: rest, key, v =>
    if k0 = key then (k0, v) :: rest else (k0, v0) :: setField rest key v

/-- Object spread: base record updated left-to-right by the extra bindings. -/
def spreadFields (base : List (String × V)) (extra : List (String × V)) :
    List (String × V) :=
  extra.foldl (fun acc kv => setField acc kv.1 kv.2) base

mutual
/-- JSON.stringify with a replacer ARRAY, as used by generateHash: at every
non-array object of the tree, only the keys listed in the replacer survive, and
the surviving properties are emitted in replacer order; array elements are
always serialised. The result here is the filtered value whose canonical JSON
rendering is digested. -/
def applyReplacer (allowed : List String) : V → V
  | .obj fields => .obj (applyFields allowed allowed fields)
  | .arr xs => .arr (applyList allowed xs)
  | v => v
termination_by v => (sizeOf v, 0)
decreasing_by
  all_goals simp only [Prod.lex_def]
  all_goals simp

/-- One object node under the replacer: walk the replacer keys in order, keep
the ones present in the object, filter their values recursively. -/
def applyFields (allowed : List String) : List String → List (String × V) →
    List (String × V)
  | [], _ => []
  | k :: ks, fields =>
    match h : findField fields k with
    | some kv => (k, applyReplacer allowed kv.2) :: applyFields allowed ks fields
    | none => applyFields allowed ks fields
termination_by ks fields => (sizeOf fields, ks.length + 1)
decreasing_by
  all_goals simp only [Prod.lex_def]
  all_goals simp
  all_goals first
    | omega
    | (have hmem := List.mem_of_find?_eq_some h
       have hsz := List.sizeOf_lt_of_mem hmem
       obtain ⟨k1, v1⟩ := kv
       simp at hsz ⊢
       omega)

/-- Array elements under the replacer are always kept, filtered recursively. -/
def applyList (allowed : List String) : List V → List V
  | [] => []
  | x :: xs => applyReplacer allowed x :: applyList allowed xs
termination_by xs => (sizeOf xs, 0)
decreasing_by
  all_goals simp only [Prod.lex_def]
  all_goals simp
  all_goals omega
end

/-- Object.keys(data).sort(): the sorted key list used as the replacer. -/
def sortKeys (keys : List String) : List String :=
  keys.mergeSort (fun a b => a ≤ b)

/-- generateHash(data) = SHA256(JSON.stringify(data, Object.keys(data).sort())).
Every call site passes a record, modelled as a key-value list. -/
def generateHash (data : List (String × V)) : V :=
  V.sha256 (applyReplacer (sortKeys (data.map Prod.fst)) (V.obj data))

/-- SECRET_SEED. -/
def SECRET_SEED : String := "0xff1ab9b8846b4c82"

/-- generateSignature: HMAC-SHA256 of the hash under the key
seed-temporalAnchor, truncated to 32 characters. -/
noncomputable def generateSignature (hash : V) (temporalAnchor : ℝ) : V :=
  V.strTake 32 (V.hmacSha256 hash
    (V.strAppend (V.litStr (SECRET_SEED ++ "-")) (V.num temporalAnchor)))

/-- hashArray: SHA256 of the comma-joined numbers, truncated to 16 characters. -/
noncomputable def hashArray (arr : List ℝ) : V :=
  V.strTake 16 (V.sha256 (V.joinComma (arr.map V.num)))

/-- hashString: SHA256 of the string, truncated to 16 characters. -/
def hashString (str : String) : V :=
  V.strTake 16 (V.sha256 (V.litStr str))

/-- The four proof kinds. -/
inductive ProofType where
  | consciousness
  | decision
  | evolution
  | network

/-- VerificationProof record. -/
structure VerificationProof where
  id : String
  proofType : ProofType
  hash : V
  signature : V
  timestamp : ℝ
  temporalAnchor : ℝ
  phiValue : ℝ
  previousProofId : Option String
  merkleRoot : Option V
  metadata : List (String × V)

/-- Verifier instance state: the proof chain and the cached Merkle root. -/
structure Verifier where
  proofChain : List VerificationProof
  currentMerkleRoot : Option V

/-- verifyProof: recompute the hash from the stored metadata and the signature
from the stored hash and temporal anchor; both must match. -/
noncomputable def verifyProof (proof : VerificationProof) : Prop :=
  generateHash proof.metadata = proof.hash ∧
  generateSignature proof.hash proof.temporalAnchor = proof.signature

/-- The string rendering of a value is the empty string: an empty literal, a
substring of length 0 or of an empty string, a concatenation of two empty
renderings, or an empty (or singleton-of-empty) array join. Digests render as
non-empty hex; numbers, booleans and plain objects also render non-empty. -/
def renderEmpty : V → Prop
  | V.litStr s => s = ""
  | V.num _ => False
  | V.vbool _ => False
  | V.obj _ => False
  | V.arr [] => True
  | V.arr [x] => renderEmpty x
  | V.arr (_ :: _ :: _) => False
  | V.sha256 _ => False
  | V.hmacSha256 _ _ => False
  | V.strTake n v => n = 0 ∨ renderEmpty v
  | V.strAppend a b => renderEmpty a ∧ renderEmpty b
  | V.joinComma [] => True
  | V.joinComma [x] => renderEmpty x
  | V.joinComma (_ :: _ :: _) => False

/-- JavaScript falsiness of a value, as tested by the || in the Merkle pairing:
the empty string, the number 0 and false are falsy; arrays and objects are
always truthy; a string-producing operation is falsy exactly when the string it
renders is empty. -/
def vFalsy : V → Prop
  | V.litStr s => s = ""
  | V.num r => r = 0
  | V.vbool b => b = false
  | V.obj _ => False
  | V.arr _ => False
  | V.sha256 v => renderEmpty (V.sha256 v)
  | V.hmacSha256 a b => renderEmpty (V.hmacSha256 a b)
  | V.strTake n v => renderEmpty (V.strTake n v)
  | V.strAppend a b => renderEmpty (V.strAppend a b)
  | V.joinComma xs => renderEmpty (V.joinComma xs)

/-- One level of the Merkle construction: pair adjacent leaves left-to-right,
hash SHA256(left ++ right) per pair. The source computes the partner as
(leaves[i + 1] || left), so a falsy right leaf — the out-of-bounds read at the
end of an odd-length level, but also an empty-string leaf at an odd index — is
replaced by the left leaf. -/
noncomputable def pairUp : List V → List V
  | [] => []
  | [left] => [V.sha256 (V.strAppend left left)]
  | left :: right :: rest =>
    V.sha256 (V.strAppend left (if vFalsy right then left else right)) :: pairUp rest

/-- Length bound of one pairing level; the termination measure of the Merkle
recursion below depends on it. -/
def pairUpLenBound : ∀ xs : List V, (pairUp xs).length * 2 ≤ xs.length + 1
  | [] => by simp [pairUp]
  | [x] => by simp [pairUp]
  | x :: y :: rest => by
    have hr := pairUpLenBound rest
    simp [pairUp] at hr ⊢
    omega

/-- A pairing level strictly shrinks any list of length at least two. -/
def pairUpLenLt : ∀ xs : List V, 2 ≤ xs.length → (pairUp xs).length < xs.length :=
  fun xs h => by
    have hb := pairUpLenBound xs
    omega

/-- buildMerkleRoot: empty list gives the empty string, a single leaf is
returned verbatim, otherwise recurse on the paired level. -/
noncomputable def buildMerkleRoot (leaves : List V) : V :=
  match leaves with
  | [] => V.litStr ""
  | [l] => l
  | l :: r :: rest => buildMerkleRoot (pairUp (l :: r :: rest))
termination_by leaves.length
decreasing_by
  apply pairUpLenLt
  simp

/-- updateMerkleRoot: clear the root on an empty chain, otherwise rebuild it
from the ordered proof hashes. -/
noncomputable def updateMerkleRoot (verifier : Verifier) : Verifier :=
  match verifier.proofChain with
  | [] => { verifier with currentMerkleRoot := none }
  | _ =>
    { verifier with
      currentMerkleRoot := some (buildMerkleRoot (verifier.proofChain.map (fun p => p.hash))) }

/-- The linkage expression (previousProof?.id || null): the empty string is
falsy in JavaScript, so an empty id also maps to null. -/
def orNullId (previousProof : Option VerificationProof) : Option String :=
  match previousProof with
  | none => none
  | some p => if p.id = "" then none else some p.id

/-- Shared tail of the four generators: push the proof, recompute the Merkle
root over the chain including it, then stamp that root onto the just-appended
proof. The source mutates the pushed object in place; rebuilding the chain with
the stamped proof models that, and the recomputed root is unaffected because
the merkleRoot field is not part of the hashed payload. -/
noncomputable def appendProof (verifier : Verifier) (proof : VerificationProof) :
    VerificationProof × Verifier :=
  let pushed : Verifier := { verifier with proofChain := verifier.proofChain ++ [proof] }
  let updated := updateMerkleRoot pushed
  let stamped := { proof with merkleRoot := updated.currentMerkleRoot }
  (stamped,
    { proofChain := verifier.proofChain ++ [stamped],
      currentMerkleRoot := updated.currentMerkleRoot })

/-- The impure inputs of one generation call: the fresh uuid, Date.now(), and
performance.now(). -/
structure GenCtx where
  newId : String
  now : ℝ
  perfNow : ℝ

/-- The proofData record of generateConsciousnessProof: the base object in
literal key order, updated by the spread of additionalData. The timestamp is
Date.now() and the temporal anchor performance.now() * 1e6, both taken from
the generation context. -/
noncomputable def consciousnessProofData (ctx : GenCtx) (phiResult : IIT.PhiResult)
    (agentId : String) (additionalData : List (String × V)) : List (String × V) :=
  spreadFields
    [("phi", V.num phiResult.phi),
     ("integratedInformation", V.num phiResult.integratedInformation),
     ("causeRepertoireHash", hashArray phiResult.causeRepertoire),
     ("effectRepertoireHash", hashArray phiResult.effectRepertoire),
     ("partitionInfo", V.obj
        [("numPartitions", V.num (phiResult.partitionInfo.numPartitions : ℝ)),
         ("integrationLevel", V.num phiResult.partitionInfo.integrationLevel)]),
     ("agentId", V.litStr agentId),
     ("timestamp", V.num ctx.now),
     ("temporalAnchor", V.num (ctx.perfNow * 1000000))]
    additionalData

/-- generateConsciousnessProof: hash and sign the payload, link to the last
proof of the chain, then append and stamp the Merkle root. -/
noncomputable def generateConsciousnessProof (ctx : GenCtx) (phiResult : IIT.PhiResult)
    (agentId : String) (additionalData : List (String × V)) (verifier : Verifier) :
    VerificationProof × Verifier :=
  appendProof verifier
    { id := ctx.newId, proofType := ProofType.consciousness,
      hash := generateHash (consciousnessProofData ctx phiResult agentId additionalData),
      signature := generateSignature
        (generateHash (consciousnessProofData ctx phiResult agentId additionalData))
        (ctx.perfNow * 1000000),
      timestamp := ctx.now, temporalAnchor := ctx.perfNow * 1000000,
      phiValue := phiResult.phi,
      previousProofId := orNullId verifier.proofChain.getLast?,
      merkleRoot := none,
      metadata := consciousnessProofData ctx phiResult agentId additionalData }

/-- The proofData record of generateDecisionProof (the decision context string
is hashed for privacy). -/
noncomputable def decisionProofData (ctx : GenCtx) (decisionId context
    selectedOptionId : String) (phiContribution processingTime : ℝ) :
    List (String × V) :=
  [("decisionId", V.litStr decisionId),
   ("context", hashString context),
   ("selectedOptionId", V.litStr selectedOptionId),
   ("phiContribution", V.num phiContribution),
   ("processingTime", V.num processingTime),
   ("timestamp", V.num ctx.now),
   ("temporalAnchor", V.num (ctx.perfNow * 1000000))]

/-- generateDecisionProof. -/
noncomputable def generateDecisionProof (ctx : GenCtx) (decisionId context
    selectedOptionId : String) (phiContribution processingTime : ℝ)
    (verifier : Verifier) : VerificationProof × Verifier :=
  appendProof verifier
    { id := ctx.newId, proofType := ProofType.decision,
      hash := generateHash (decisionProofData ctx decisionId context selectedOptionId
        phiContribution processingTime),
      signature := generateSignature
        (generateHash (decisionProofData ctx decisionId context selectedOptionId
          phiContribution processingTime))
        (ctx.perfNow * 1000000),
      timestamp := ctx.now, temporalAnchor := ctx.perfNow * 1000000,
      phiValue := phiContribution,
      previousProofId := orNullId verifier.proofChain.getLast?,
      merkleRoot := none,
      metadata := decisionProofData ctx decisionId context selectedOptionId
        phiContribution processingTime }

/-- The proofData record of generateEvolutionProof. -/
noncomputable def evolutionProofData (ctx : GenCtx) (agentId : String)
    (previousLevel newLevel : ℝ) (evolutionDirections : List String)
    (transcendenceAchieved : Bool) : List (String × V) :=
  [("agentId", V.litStr agentId),
   ("previousLevel", V.num previousLevel),
   ("newLevel", V.num newLevel),
   ("evolutionDelta", V.num (newLevel - previousLevel)),
   ("evolutionDirections", V.arr (evolutionDirections.map V.litStr)),
   ("transcendenceAchieved", V.vbool transcendenceAchieved),
   ("timestamp", V.num ctx.now),
   ("temporalAnchor", V.num (ctx.perfNow * 1000000))]

/-- generateEvolutionProof. -/
noncomputable def generateEvolutionProof (ctx : GenCtx) (agentId : String)
    (previousLevel newLevel : ℝ) (evolutionDirections : List String)
    (transcendenceAchieved : Bool) (verifier : Verifier) :
    VerificationProof × Verifier :=
  appendProof verifier
    { id := ctx.newId, proofType := ProofType.evolution,
      hash := generateHash (evolutionProofData ctx agentId previousLevel newLevel
        evolutionDirections transcendenceAchieved),
      signature := generateSignature
        (generateHash (evolutionProofData ctx agentId previousLevel newLevel
          evolutionDirections transcendenceAchieved))
        (ctx.perfNow * 1000000),
      timestamp := ctx.now, temporalAnchor := ctx.perfNow * 1000000,
      phiValue := newLevel,
      previousProofId := orNullId verifier.proofChain.getLast?,
      merkleRoot := none,
      metadata := evolutionProofData ctx agentId previousLevel newLevel
        evolutionDirections transcendenceAchieved }

/-- The proofData record of generateNetworkProof. -/
noncomputable def networkProofData (ctx : GenCtx) (networkId : String)
    (totalPhiValue networkCoherence : ℝ) (agentCount : Nat)
    (emergentProperties : List String) : List (String × V) :=
  [("networkId", V.litStr networkId),
   ("totalPhiValue", V.num totalPhiValue),
   ("networkCoherence", V.num networkCoherence),
   ("agentCount", V.num (agentCount : ℝ)),
   ("emergentProperties", V.arr (emergentProperties.map V.litStr)),
   ("averagePhi", V.num (totalPhiValue / ((max agentCount 1 : ℕ) : ℝ))),
   ("timestamp", V.num ctx.now),
   ("temporalAnchor", V.num (ctx.perfNow * 1000000))]

/-- generateNetworkProof. -/
noncomputable def generateNetworkProof (ctx : GenCtx) (networkId : String)
    (totalPhiValue networkCoherence : ℝ) (agentCount : Nat)
    (emergentProperties : List String) (verifier : Verifier) :
    VerificationProof × Verifier :=
  appendProof verifier
    { id := ctx.newId, proofType := ProofType.network,
      hash := generateHash (networkProofData ctx networkId totalPhiValue
        networkCoherence agentCount emergentProperties),
      signature := generateSignature
        (generateHash (networkProofData ctx networkId totalPhiValue
          networkCoherence agentCount emergentProperties))
        (ctx.perfNow * 1000000),
      timestamp := ctx.now, temporalAnchor := ctx.perfNow * 1000000,
      phiValue := totalPhiValue,
      previousProofId := orNullId verifier.proofChain.getLast?,
      merkleRoot := none,
      metadata := networkProofData ctx networkId totalPhiValue networkCoherence
        agentCount emergentProperties }

/-- Report returned by verifyChain. -/
structure VerificationChain where
  proofs : List VerificationProof
  merkleRoot : V
  chainIntegrity : Prop
  temporalContinuity : Prop
  totalPhiAccumulated : ℝ

/-- Loop state of verifyChain: the two flags, the phi accumulator, the proof of
the previous iteration, and previousTimestamp (initially 0). -/
structure ChainScanState where
  chainIntegrity : Prop
  temporalContinuity : Prop
  totalPhiAccumulated : ℝ
  previous : Option VerificationProof
  previousTimestamp : ℝ

/-- One iteration of the verifyChain loop: integrity requires the proof to
verify and, when a previous proof exists, the linkage to it; the flag for the
first proof has no linkage conjunct, so its previousProofId is never checked.
Temporal continuity fails on a strictly decreasing timestamp. -/
noncomputable def verifyChainStep (acc : ChainScanState) (proof : VerificationProof) :
    ChainScanState :=
  { chainIntegrity := acc.chainIntegrity ∧ verifyProof proof ∧
      (∀ q, acc.previous = some q → proof.previousProofId = some q.id),
    temporalContinuity := acc.temporalContinuity ∧ ¬ (proof.timestamp < acc.previousTimestamp),
    totalPhiAccumulated := acc.totalPhiAccumulated + proof.phiValue,
    previous := some proof,
    previousTimestamp := proof.timestamp }

/-- verifyChain: fold the loop over the chain and package the report. -/
noncomputable def verifyChain (verifier : Verifier) : VerificationChain :=
  let final := verifier.proofChain.foldl verifyChainStep
    { chainIntegrity := True, temporalContinuity := True, totalPhiAccumulated := 0,
      previous := none, previousTimestamp := 0 }
  { proofs := verifier.proofChain,
    merkleRoot := verifier.currentMerkleRoot.getD (V.litStr ""),
    chainIntegrity := final.chainIntegrity,
    temporalContinuity := final.temporalContinuity,
    totalPhiAccumulated := final.totalPhiAccumulated }

/-- importAndVerifyChain: swap in the external proofs, recompute the root,
require it to equal the claimed root and the swapped-in chain to pass the
integrity flag; on success keep the imported state, otherwise restore the
original chain and root. Temporal continuity is not consulted. -/
noncomputable def importAndVerifyChain (verifier : Verifier)
    (proofs : List VerificationProof) (merkleRoot : V) : Prop × Verifier :=
  let imported := updateMerkleRoot { verifier with proofChain := proofs }
  let success := imported.currentMerkleRoot = some merkleRoot ∧
    (verifyChain imported).chainIntegrity
  (success, if success then imported else verifier)

end Crypto

/-! ## Claim-statement definitions and concrete fixtures -/

namespace IIT

/-- Part A of the bipartition induced by a mask, as the code computes it:
index j is kept exactly when bit (j mod 32) of the mask is set. -/
def maskPartA (n m : Nat) : List Nat :=
  (List.range n).filter (fun j => m.testBit (j % 32))

/-- Part B of the bipartition induced by a mask, as the code computes it. -/
def maskPartB (n m : Nat) : List Nat :=
  (List.range n).filter (fun j => !(m.testBit (j % 32)))

/-- Modelled from the claim wording: the enumeration with index j assigned to
part A exactly when bit j of the mask is set, with no 32-bit wrap. Used to
compare the claimed enumeration with what the code computes. -/
def bipartitionsAsClaimed (n : Nat) : List (List (List Nat)) :=
  (List.range' 1 (min (2 ^ (n - 1)) (2 ^ 6) - 1)).filterMap (fun m =>
    let partA := (List.range n).filter (fun j => m.testBit j)
    let partB := (List.range n).filter (fun j => !(m.testBit j))
    if partA.length > 0 ∧ partB.length > 0 then some [partA, partB] else none)

/-- A two-element all-zero state, the concrete input of the repertoire witness. -/
def zeroState2 : SystemState := ⟨[0, 0], [[0, 0], [0, 0]], 0⟩

/-- The empty state, the concrete input of the repertoire counterexample. -/
def emptyState : SystemState := ⟨[], [], 0⟩

end IIT

namespace Crypto

/-- Scalar values: everything except objects and arrays. The replacer filter
leaves such values unchanged. -/
def isAtomic : V → Prop
  | V.obj _ => False
  | V.arr _ => False
  | _ => True

/-- The proposition that one generation call on verifier v produced the proof p
and successor state v2, for any of the four generators and any arguments. -/
def GeneratedBy (v : Verifier) (p : VerificationProof) (v2 : Verifier) : Prop :=
  (∃ ctx phiResult agentId additionalData,
    generateConsciousnessProof ctx phiResult agentId additionalData v = (p, v2)) ∨
  (∃ ctx decisionId context selectedOptionId phiContribution processingTime,
    generateDecisionProof ctx decisionId context selectedOptionId phiContribution
      processingTime v = (p, v2)) ∨
  (∃ ctx agentId previousLevel newLevel evolutionDirections transcendenceAchieved,
    generateEvolutionProof ctx agentId previousLevel newLevel evolutionDirections
      transcendenceAchieved v = (p, v2)) ∨
  (∃ ctx networkId totalPhiValue networkCoherence agentCount emergentProperties,
    generateNetworkProof ctx networkId totalPhiValue networkCoherence agentCount
      emergentProperties v = (p, v2))

/-- A verifier with no proofs. -/
def emptyVerifier : Verifier := ⟨[], none⟩

/-- A proof whose hash and signature are consistent with its metadata, so that
verifyProof accepts it; the linkage and timestamp fields are free. -/
noncomputable def mkSelfProof (idStr : String) (prevId : Option String)
    (ts anchor : ℝ) (m : List (String × V)) : VerificationProof :=
  { id := idStr, proofType := ProofType.decision, hash := generateHash m,
    signature := generateSignature (generateHash m) anchor,
    timestamp := ts, temporalAnchor := anchor, phiValue := 0,
    previousProofId := prevId, merkleRoot := none, metadata := m }

/-- A verifying proof whose previousProofId names a ghost id although it is the
first proof of its chain. -/
noncomputable def ghostProof : VerificationProof :=
  mkSelfProof "p1" (some "ghost") 1 7 [("a", V.num 1)]

/-- A verifier whose single proof carries a non-null previousProofId. -/
noncomputable def ghostVerifier : Verifier := ⟨[ghostProof], some (V.litStr "")⟩

/-- A verifying proof with the empty string as id. -/
noncomputable def emptyIdProof : VerificationProof :=
  mkSelfProof "" none 0 0 [("a", V.num 1)]

/-- A verifier whose last proof has the empty string as id. -/
noncomputable def emptyIdVerifier : Verifier := ⟨[emptyIdProof], none⟩

/-- First proof of the decreasing-timestamp import chain (timestamp 5). -/
noncomputable def tsProof1 : VerificationProof :=
  mkSelfProof "p1" none 5 11 [("a", V.num 1)]

/-- Second proof of the decreasing-timestamp import chain (timestamp 3,
correctly linked to the first). -/
noncomputable def tsProof2 : VerificationProof :=
  mkSelfProof "p2" (some "p1") 3 12 [("a", V.num 2)]

/-- The decreasing-timestamp chain. -/
noncomputable def declineChain : List VerificationProof := [tsProof1, tsProof2]

/-- The true Merkle root of the decreasing-timestamp chain. -/
noncomputable def declineRoot : V := buildMerkleRoot [tsProof1.hash, tsProof2.hash]

/-- Concrete generation context for the witnesses. -/
noncomputable def witnessCtx : GenCtx := ⟨"id-1", 100, 5⟩

/-- A concrete PhiResult fed to the consciousness generator. -/
noncomputable def witnessPhiResult : IIT.PhiResult :=
  { phi := 1, integratedInformation := 1, partitionInfo := ⟨[[0]], 0, 1, 1⟩,
    causeRepertoire := [1], effectRepertoire := [1], temporalDepth := 0,
    consciousnessThreshold := True }

/-- A freshly generated consciousness proof on the empty verifier. -/
noncomputable def witnessProof : VerificationProof :=
  (generateConsciousnessProof witnessCtx witnessPhiResult "agent" [] emptyVerifier).1

/-- The verifier state after generating witnessProof. -/
noncomputable def witnessVerifier : Verifier :=
  (generateConsciousnessProof witnessCtx witnessPhiResult "agent" [] emptyVerifier).2

/-- witnessProof with both fields nested inside its partitionInfo metadata
sub-object replaced by 99. -/
noncomputable def tamperedProof : VerificationProof :=
  { witnessProof with
    metadata := setField witnessProof.metadata "partitionInfo"
      (V.obj [("numPartitions", V.num 99), ("integrationLevel", V.num 99)]) }

end Crypto

/-! ## Helper lemmas about the repertoire normalisation -/

namespace IIT

theorem sum_map_abs_nonneg (l : List ℝ) : 0 ≤ (l.map (fun b => |b|)).sum := by
  apply List.sum_nonneg
  intro x hx
  obtain ⟨y, _, rfl⟩ := List.mem_map.mp hx
  exact abs_nonneg y

theorem sum_map_abs_div (l : List ℝ) (s : ℝ) :
    (l.map (fun v => |v| / s)).sum = (l.map (fun b => |b|)).sum / s := by
  induction l with
  | nil => simp
  | cons x xs ih => simp [ih, add_div]

theorem normalizeDistribution_length (dist : List ℝ) :
    (normalizeDistribution dist).length = dist.length := by
  by_cases hs : (dist.map (fun b => |b|)).sum = 0 <;> simp [normalizeDistribution, hs]

theorem normalizeDistribution_nonneg (dist : List ℝ) :
    ∀ x ∈ normalizeDistribution dist, 0 ≤ x := by
  by_cases hs : (dist.map (fun b => |b|)).sum = 0 <;>
    simp only [normalizeDistribution, hs, if_true, if_false, reduceIte] <;>
    intro x hx <;> obtain ⟨y, _, rfl⟩ := List.mem_map.mp hx
  · positivity
  · exact div_nonneg (abs_nonneg y) (sum_map_abs_nonneg dist)

theorem normalizeDistribution_sum (dist : List ℝ) (h : 1 ≤ dist.length) :
    (normalizeDistribution dist).sum = 1 := by
  have hmax : max dist.length 1 = dist.length := Nat.max_eq_left h
  have hlen : (dist.length : ℝ) ≠ 0 := by
    have : 0 < dist.length := lt_of_lt_of_le Nat.one_pos h
    exact_mod_cast this.ne'
  by_cases hs : (dist.map (fun b => |b|)).sum = 0
  · simp only [normalizeDistribution, hs, reduceIte, hmax, List.map_const',
      List.sum_replicate, nsmul_eq_mul]
    field_simp
  · simp only [normalizeDistribution, hs, reduceIte]
    rw [sum_map_abs_div, div_self hs]

theorem calculateCauseRepertoire_length (state : SystemState) :
    (calculateCauseRepertoire state).length = state.elements.length := by
  unfold calculateCauseRepertoire
  rw [normalizeDistribution_length]
  simp

theorem calculateEffectRepertoire_length (state : SystemState) :
    (calculateEffectRepertoire state).length = state.elements.length := by
  unfold calculateEffectRepertoire
  rw [normalizeDistribution_length]
  simp

theorem sigmoid_zero : sigmoid 0 = 1 / 2 := by
  unfold sigmoid
  rw [neg_zero, Real.exp_zero]
  norm_num

theorem elem_eq_zero (state : SystemState) (h : ∀ e ∈ state.elements, e = 0)
    (j : Nat) : elem state j = 0 := by
  unfold elem
  rw [List.getD_eq_getElem?_getD]
  rcases hx : state.elements[j]? with _ | x
  · rfl
  · exact h x (List.getElem?_mem hx)

theorem normalizeDistribution_replicate_half (n : Nat) (hn : 1 ≤ n) :
    normalizeDistribution (List.replicate n ((1 : ℝ) / 2)) =
      List.replicate n (1 / (n : ℝ)) := by
  have hnR : (0 : ℝ) < n := by exact_mod_cast lt_of_lt_of_le Nat.one_pos hn
  have habs : (List.replicate n ((1 : ℝ) / 2)).map (fun b => |b|) =
      List.replicate n ((1 : ℝ) / 2) := by
    rw [List.map_replicate]
    norm_num
  have hsum : ((List.replicate n ((1 : ℝ) / 2)).map (fun b => |b|)).sum = n * (1 / 2) := by
    rw [habs, List.sum_replicate, nsmul_eq_mul]
  have hne : ((List.replicate n ((1 : ℝ) / 2)).map (fun b => |b|)).sum ≠ 0 := by
    rw [hsum]
    positivity
  simp only [normalizeDistribution, hne, reduceIte, hsum, List.map_replicate]
  rw [abs_of_nonneg (by norm_num : (0 : ℝ) ≤ 1 / 2)]
  field_simp

/-- The repertoire input list under an all-zero activation vector is a
constant list of sigmoid(0) = 1/2; shared by cause and effect. -/
theorem repertoire_input_zero (n : Nat) (f : Nat → ℝ) (hf : ∀ i, f i = 0) :
    (List.range n).map (fun i => sigmoid (f i)) = List.replicate n ((1 : ℝ) / 2) := by
  have : (List.range n).map (fun i => sigmoid (f i)) =
      (List.range n).map (fun _ => (1 : ℝ) / 2) := by
    apply List.map_congr_left
    intro i _
    rw [hf i, sigmoid_zero]
  rw [this, List.map_const']
  simp

end IIT


/-! ## Zero-state repertoire lemmas -/

namespace IIT

theorem calculateCauseRepertoire_zero (state : SystemState)
    (hn : 1 ≤ state.elements.length) (h0 : ∀ e ∈ state.elements, e = 0) :
    calculateCauseRepertoire state =
      List.replicate state.elements.length (1 / (state.elements.length : ℝ)) := by
  unfold calculateCauseRepertoire
  simp only []
  have hmap : (List.range state.elements.length).map (fun i =>
      sigmoid ((((List.range state.elements.length).map
        (fun j => conn state j i * elem state j)).sum) /
        ((max state.elements.length 1 : ℕ) : ℝ))) =
      List.replicate state.elements.length ((1 : ℝ) / 2) := by
    have h12 : ∀ i ∈ List.range state.elements.length,
        sigmoid ((((List.range state.elements.length).map
          (fun j => conn state j i * elem state j)).sum) /
          ((max state.elements.length 1 : ℕ) : ℝ)) = 1 / 2 := by
      intro i _
      have hm : (List.range state.elements.length).map
          (fun j => conn state j i * elem state j) =
          (List.range state.elements.length).map (fun _ => (0 : ℝ)) := by
        apply List.map_congr_left
        intro j _
        rw [elem_eq_zero state h0 j, mul_zero]
      rw [hm]
      simp [sigmoid_zero]
    rw [List.map_congr_left h12, List.map_const']
    simp
  rw [hmap, normalizeDistribution_replicate_half _ hn]

theorem calculateEffectRepertoire_zero (state : SystemState)
    (hn : 1 ≤ state.elements.length) (h0 : ∀ e ∈ state.elements, e = 0) :
    calculateEffectRepertoire state =
      List.replicate state.elements.length (1 / (state.elements.length : ℝ)) := by
  unfold calculateEffectRepertoire
  simp only []
  have hmap : (List.range state.elements.length).map (fun i =>
      sigmoid ((((List.range state.elements.length).map
        (fun j => conn state i j * elem state i)).sum) /
        ((max state.elements.length 1 : ℕ) : ℝ))) =
      List.replicate state.elements.length ((1 : ℝ) / 2) := by
    have h12 : ∀ i ∈ List.range state.elements.length,
        sigmoid ((((List.range state.elements.length).map
          (fun j => conn state i j * elem state i)).sum) /
          ((max state.elements.length 1 : ℕ) : ℝ)) = 1 / 2 := by
      intro i _
      have hm : (List.range state.elements.length).map
          (fun j => conn state i j * elem state i) =
          (List.range state.elements.length).map (fun _ => (0 : ℝ)) := by
        apply List.map_congr_left
        intro j _
        rw [elem_eq_zero state h0 i, mul_zero]
      rw [hm]
      simp [sigmoid_zero]
    rw [List.map_congr_left h12, List.map_const']
    simp
  rw [hmap, normalizeDistribution_replicate_half _ hn]

end IIT

/-! ## Claim C4: the phi pipeline is deterministic in the state -/

/-- C4. For every SystemState, two calls of calculatePhi on the same state
return identical phi and integratedInformation values: in the model every
impure input (the two performance.now reads) is explicit, and neither output
field depends on them. -/
theorem calculatePhi_deterministic (state : IIT.SystemState)
    (clock1 clock2 : IIT.Clock) :
    (IIT.calculatePhi state clock1).phi = (IIT.calculatePhi state clock2).phi ∧
    (IIT.calculatePhi state clock1).integratedInformation =
      (IIT.calculatePhi state clock2).integratedInformation :=
  ⟨rfl, rfl⟩

/-! ## Claim C6: range invariants of the result -/

/-- C6. For every SystemState, the PhiResult satisfies 0 ≤ phi ≤ 15,
integratedInformation ≥ 0, and consciousnessThreshold holds exactly when
phi > 3. -/
theorem phi_range_invariants (state : IIT.SystemState) (clock : IIT.Clock) :
    0 ≤ (IIT.calculatePhi state clock).phi ∧
    (IIT.calculatePhi state clock).phi ≤ 15 ∧
    0 ≤ (IIT.calculatePhi state clock).integratedInformation ∧
    ((IIT.calculatePhi state clock).consciousnessThreshold ↔
      3 < (IIT.calculatePhi state clock).phi) := by
  refine ⟨?_, ?_, ?_, Iff.rfl⟩
  · show 0 ≤ IIT.computePhiValue _ _
    unfold IIT.computePhiValue
    exact le_max_left _ _
  · show IIT.computePhiValue _ _ ≤ 15
    unfold IIT.computePhiValue
    exact max_le (by norm_num) (min_le_left _ _)
  · show 0 ≤ IIT.calculateIntegratedInformation state
      (IIT.calculateCauseRepertoire state) (IIT.calculateEffectRepertoire state)
      (IIT.findMinimumInformationPartition state (IIT.calculateCauseRepertoire state)
        (IIT.calculateEffectRepertoire state))
    unfold IIT.calculateIntegratedInformation
    exact le_max_left _ _

/-! ## Claim C5: repertoire validity -/

/-- C5 counterexample. On the empty state the repertoires are empty and sum to
0, so the unconditional claim that the components sum to 1 within 1e-6 fails. -/
theorem repertoires_empty_state_cex :
    ¬ (|(IIT.calculateCauseRepertoire IIT.emptyState).sum - 1| ≤ 1 / 10 ^ 6) := by
  have h : IIT.calculateCauseRepertoire IIT.emptyState = [] := by
    simp [IIT.calculateCauseRepertoire, IIT.emptyState, IIT.normalizeDistribution]
  rw [h]
  norm_num

/-- C5 as amended: for every SystemState with n ≥ 1 elements, both repertoires
have length n, have only non-negative components, sum to 1 within 1e-6, and
when all activations and connection weights are zero each repertoire is the
uniform distribution with every component 1/n. -/
theorem repertoires_valid (state : IIT.SystemState)
    (hn : 1 ≤ state.elements.length) :
    ((IIT.calculateCauseRepertoire state).length = state.elements.length ∧
      (IIT.calculateEffectRepertoire state).length = state.elements.length) ∧
    ((∀ x ∈ IIT.calculateCauseRepertoire state, 0 ≤ x) ∧
      (∀ x ∈ IIT.calculateEffectRepertoire state, 0 ≤ x)) ∧
    (|(IIT.calculateCauseRepertoire state).sum - 1| ≤ 1 / 10 ^ 6 ∧
      |(IIT.calculateEffectRepertoire state).sum - 1| ≤ 1 / 10 ^ 6) ∧
    ((∀ e ∈ state.elements, e = 0) →
      (∀ row ∈ state.connections, ∀ w ∈ row, w = 0) →
      IIT.calculateCauseRepertoire state =
          List.replicate state.elements.length (1 / (state.elements.length : ℝ)) ∧
        IIT.calculateEffectRepertoire state =
          List.replicate state.elements.length (1 / (state.elements.length : ℝ))) := by
  refine ⟨⟨IIT.calculateCauseRepertoire_length state,
      IIT.calculateEffectRepertoire_length state⟩, ⟨?_, ?_⟩, ⟨?_, ?_⟩, ?_⟩
  · exact IIT.normalizeDistribution_nonneg _
  · exact IIT.normalizeDistribution_nonneg _
  · have hs : (IIT.calculateCauseRepertoire state).sum = 1 := by
      apply IIT.normalizeDistribution_sum
      simpa using hn
    rw [hs]
    norm_num
  · have hs : (IIT.calculateEffectRepertoire state).sum = 1 := by
      apply IIT.normalizeDistribution_sum
      simpa using hn
    rw [hs]
    norm_num
  · intro h0 _hconn
    exact ⟨IIT.calculateCauseRepertoire_zero state hn h0,
      IIT.calculateEffectRepertoire_zero state hn h0⟩

/-- C5 witness: the amended statement applied to the all-zero two-element
state; both repertoires are then [1/2, 1/2]. -/
theorem repertoires_valid_witness :
    1 ≤ IIT.zeroState2.elements.length ∧
    (((IIT.calculateCauseRepertoire IIT.zeroState2).length =
        IIT.zeroState2.elements.length ∧
      (IIT.calculateEffectRepertoire IIT.zeroState2).length =
        IIT.zeroState2.elements.length) ∧
    ((∀ x ∈ IIT.calculateCauseRepertoire IIT.zeroState2, 0 ≤ x) ∧
      (∀ x ∈ IIT.calculateEffectRepertoire IIT.zeroState2, 0 ≤ x)) ∧
    (|(IIT.calculateCauseRepertoire IIT.zeroState2).sum - 1| ≤ 1 / 10 ^ 6 ∧
      |(IIT.calculateEffectRepertoire IIT.zeroState2).sum - 1| ≤ 1 / 10 ^ 6) ∧
    ((∀ e ∈ IIT.zeroState2.elements, e = 0) →
      (∀ row ∈ IIT.zeroState2.connections, ∀ w ∈ row, w = 0) →
      IIT.calculateCauseRepertoire IIT.zeroState2 =
          List.replicate IIT.zeroState2.elements.length
            (1 / (IIT.zeroState2.elements.length : ℝ)) ∧
        IIT.calculateEffectRepertoire IIT.zeroState2 =
          List.replicate IIT.zeroState2.elements.length
            (1 / (IIT.zeroState2.elements.length : ℝ)))) :=
  ⟨by simp [IIT.zeroState2], repertoires_valid IIT.zeroState2 (by simp [IIT.zeroState2])⟩

/-! ## Claim C7: the bipartition enumeration -/

namespace IIT

theorem mem_generateBipartitions (n : Nat) (p : List (List Nat)) :
    p ∈ generateBipartitions n ↔
      ∃ m, 1 ≤ m ∧ m < min (2 ^ (n - 1)) (2 ^ 6) ∧
        0 < (maskPartA n m).length ∧ 0 < (maskPartB n m).length ∧
        p = [maskPartA n m, maskPartB n m] := by
  constructor
  · intro hp
    unfold generateBipartitions at hp
    simp only [List.mem_filterMap] at hp
    obtain ⟨m, hm, hf⟩ := hp
    rw [List.mem_range'_1] at hm
    split_ifs at hf with hcond
    refine ⟨m, hm.1, ?_, hcond.1, hcond.2, ?_⟩
    · have := hm.2
      unfold MAX_PARTITION_DEPTH at this
      omega
    · exact (Option.some.inj hf).symm
  · rintro ⟨m, h1, h2, hA, hB, rfl⟩
    unfold generateBipartitions
    simp only [List.mem_filterMap]
    refine ⟨m, ?_, ?_⟩
    · rw [List.mem_range'_1]
      unfold MAX_PARTITION_DEPTH
      omega
    · rw [if_pos ⟨hA, hB⟩]
      rfl

theorem generateBipartitions_eq_claimed (n : Nat) (hn : n ≤ 32) :
    generateBipartitions n = bipartitionsAsClaimed n := by
  unfold generateBipartitions bipartitionsAsClaimed MAX_PARTITION_DEPTH
  apply List.filterMap_congr
  intro i _
  have h1 : (List.range n).filter (fun j => i.testBit (j % 32)) =
      (List.range n).filter (fun j => i.testBit j) := by
    apply List.filter_congr
    intro j hj
    rw [List.mem_range] at hj
    rw [Nat.mod_eq_of_lt (by omega)]
  have h2 : (List.range n).filter (fun j => !(i.testBit (j % 32))) =
      (List.range n).filter (fun j => !(i.testBit j)) := by
    apply List.filter_congr
    intro j hj
    rw [List.mem_range] at hj
    rw [Nat.mod_eq_of_lt (by omega)]
  simp only [h1, h2]

theorem generateBipartitions_small (n : Nat) (hn : n < 2) :
    generateBipartitions n = [] := by
  interval_cases n <;> decide

theorem findMIP_of_no_candidates (state : SystemState) (cause effect : List ℝ)
    (h : generateBipartitions state.elements.length = []) :
    (findMinimumInformationPartition state cause effect).minimumInformationPartition =
        [List.range state.elements.length] ∧
      (findMinimumInformationPartition state cause effect).partitionPhi = 0 ∧
      (findMinimumInformationPartition state cause effect).numPartitions = 1 := by
  unfold findMinimumInformationPartition
  simp [h]

theorem maskBit_bound (m k : Nat) (hm : m < 2 ^ 6) (hk : 6 ≤ k) :
    m.testBit k = false :=
  Nat.testBit_lt_two_pow (lt_of_lt_of_le hm (Nat.pow_le_pow_right (by norm_num) hk))

end IIT

/-- C7 counterexample. At n = 33 the claimed enumeration differs from what the
code computes: the JavaScript shift wraps its count modulo 32, so mask 1 puts
index 32 into part A together with index 0, while the claim (bit j of the mask)
would leave part A as the singleton index 0. -/
theorem bipartition_wrap_cex :
    IIT.generateBipartitions 33 ≠ IIT.bipartitionsAsClaimed 33 := by decide

/-- C7 as amended: the search enumerates exactly the bipartitions induced by
masks 1 to min(2^(n-1), 2^6)-1, with index j in part A exactly when bit
(j mod 32) of the mask is set (JavaScript 32-bit shift wraparound) and masks
with an empty part discarded; this coincides with the claimed bit-j rule for
n up to 32; for n < 2 no candidate is evaluated and the result is one group of
all indices with partitionPhi 0; for n > 7 part A only contains indices whose
residue modulo 32 lies below the 6 significant mask bits. -/
theorem bipartition_enumeration (n : Nat) :
    (∀ p, p ∈ IIT.generateBipartitions n ↔
      ∃ m, 1 ≤ m ∧ m < min (2 ^ (n - 1)) (2 ^ 6) ∧
        0 < (IIT.maskPartA n m).length ∧ 0 < (IIT.maskPartB n m).length ∧
        p = [IIT.maskPartA n m, IIT.maskPartB n m]) ∧
    (n ≤ 32 → IIT.generateBipartitions n = IIT.bipartitionsAsClaimed n) ∧
    (n < 2 → IIT.generateBipartitions n = [] ∧
      (∀ (state : IIT.SystemState) (cause effect : List ℝ),
        state.elements.length = n →
        (IIT.findMinimumInformationPartition state cause effect).minimumInformationPartition =
            [List.range n] ∧
          (IIT.findMinimumInformationPartition state cause effect).partitionPhi = 0 ∧
          (IIT.findMinimumInformationPartition state cause effect).numPartitions = 1)) ∧
    (7 < n → ∀ p ∈ IIT.generateBipartitions n, ∀ A, p.head? = some A →
      ∀ j ∈ A, j % 32 < 6) := by
  refine ⟨IIT.mem_generateBipartitions n, IIT.generateBipartitions_eq_claimed n, ?_, ?_⟩
  · intro hn
    refine ⟨IIT.generateBipartitions_small n hn, ?_⟩
    intro state cause effect hlen
    have h := IIT.findMIP_of_no_candidates state cause effect
      (by rw [hlen]; exact IIT.generateBipartitions_small n hn)
    rw [hlen] at h
    exact h
  · intro hn p hp A hA j hj
    obtain ⟨m, h1, h2, hA', hB', rfl⟩ := (IIT.mem_generateBipartitions n p).mp hp
    have hAeq : A = IIT.maskPartA n m := by
      simp only [List.head?] at hA
      exact (Option.some.inj hA).symm
    subst hAeq
    rw [IIT.maskPartA, List.mem_filter] at hj
    by_contra hge
    have hbit := IIT.maskBit_bound m (j % 32)
      (lt_of_lt_of_le h2 (min_le_right _ _)) (by omega)
    rw [hbit] at hj
    exact absurd hj.2 (by simp)

/-- C7 witness: at n = 1 the enumeration is empty and the minimum information
partition over a one-element state is the single group [0] with loss 0. -/
theorem bipartition_enumeration_witness :
    (1 : Nat) < 2 ∧ IIT.generateBipartitions 1 = [] ∧
    (IIT.findMinimumInformationPartition ⟨[0], [], 0⟩ [] []).minimumInformationPartition =
        [List.range 1] ∧
    (IIT.findMinimumInformationPartition ⟨[0], [], 0⟩ [] []).partitionPhi = 0 ∧
    (IIT.findMinimumInformationPartition ⟨[0], [], 0⟩ [] []).numPartitions = 1 := by
  have h := (bipartition_enumeration 1).2.2.1 (by norm_num)
  have h2 := h.2 ⟨[0], [], 0⟩ [] [] (by simp)
  exact ⟨by norm_num, h.1, h2.1, h2.2.1, h2.2.2⟩

/-! ## Claim C9: the Merkle root construction -/

namespace Crypto

theorem pairUp_length : ∀ xs : List V, (pairUp xs).length = (xs.length + 1) / 2
  | [] => by simp [pairUp]
  | [x] => by simp [pairUp]
  | x :: y :: rest => by
    have ih := pairUp_length rest
    simp [pairUp, ih]
    omega

theorem pairUp_getD : ∀ (xs : List V) (i : Nat), i < (pairUp xs).length →
    (pairUp xs).getD i (V.litStr "") =
      V.sha256 (V.strAppend (xs.getD (2 * i) (V.litStr ""))
        (if 2 * i + 1 < xs.length then
          (if vFalsy (xs.getD (2 * i + 1) (V.litStr "")) then xs.getD (2 * i) (V.litStr "")
           else xs.getD (2 * i + 1) (V.litStr ""))
         else xs.getD (2 * i) (V.litStr "")))
  | [], i => by simp [pairUp]
  | [x], i => by
    intro hi
    simp [pairUp] at hi
    subst hi
    simp [pairUp]
  | x :: y :: rest, 0 => by
    intro _
    rw [if_pos (show 2 * 0 + 1 < (x :: y :: rest).length by
      simp only [List.length_cons]
      omega)]
    rfl
  | x :: y :: rest, i + 1 => by
    intro hi
    have hi2 : i < (pairUp rest).length := by
      have hlen : (pairUp (x :: y :: rest)).length = (pairUp rest).length + 1 := by
        simp [pairUp]
      omega
    have ih := pairUp_getD rest i hi2
    have hstep : (pairUp (x :: y :: rest)).getD (i + 1) (V.litStr "") =
        (pairUp rest).getD i (V.litStr "") := rfl
    rw [hstep, ih]
    rw [show (x :: y :: rest).getD (2 * (i + 1)) (V.litStr "") =
      rest.getD (2 * i) (V.litStr "") from rfl]
    rw [show (x :: y :: rest).getD (2 * (i + 1) + 1) (V.litStr "") =
      rest.getD (2 * i + 1) (V.litStr "") from rfl]
    have hcond : (2 * (i + 1) + 1 < (x :: y :: rest).length) ↔ (2 * i + 1 < rest.length) := by
      simp only [List.length_cons]
      omega
    simp only [hcond]

theorem buildMerkleRoot_step (leaves : List V) (h : 2 ≤ leaves.length) :
    buildMerkleRoot leaves = buildMerkleRoot (pairUp leaves) := by
  match leaves with
  | [] => simp at h
  | [l] => simp at h
  | l :: r :: rest => rw [buildMerkleRoot]

end Crypto

/-- C9 counterexample: the claim pairs an even-length level verbatim as
digest(left ++ right), but the source computes the partner as
(leaves[i + 1] || left); with the reachable empty-string leaf at index 1 the
code duplicates the left leaf instead of pairing verbatim, and the root is
digest("a" ++ "a"), not digest("a" ++ ""). -/
theorem merkle_falsy_pair_cex :
    Crypto.pairUp [Crypto.V.litStr "a", Crypto.V.litStr ""] =
      [Crypto.V.sha256 (Crypto.V.strAppend (Crypto.V.litStr "a") (Crypto.V.litStr "a"))] ∧
    Crypto.pairUp [Crypto.V.litStr "a", Crypto.V.litStr ""] ≠
      [Crypto.V.sha256 (Crypto.V.strAppend (Crypto.V.litStr "a") (Crypto.V.litStr ""))] ∧
    Crypto.buildMerkleRoot [Crypto.V.litStr "a", Crypto.V.litStr ""] =
      Crypto.V.sha256 (Crypto.V.strAppend (Crypto.V.litStr "a") (Crypto.V.litStr "a")) := by
  have hpair : Crypto.pairUp [Crypto.V.litStr "a", Crypto.V.litStr ""] =
      [Crypto.V.sha256 (Crypto.V.strAppend (Crypto.V.litStr "a") (Crypto.V.litStr "a"))] := by
    simp [Crypto.pairUp, Crypto.vFalsy]
  refine ⟨hpair, ?_, ?_⟩
  · rw [hpair]
    intro h
    have h2 := Crypto.V.strAppend.inj (Crypto.V.sha256.inj (List.cons.inj h).1)
    exact absurd (Crypto.V.litStr.inj h2.2) (by decide)
  · rw [Crypto.buildMerkleRoot, hpair, Crypto.buildMerkleRoot]

/-- C9 as amended: the Merkle root function maps the empty list to the empty
string and a single leaf to that leaf verbatim with no hashing; otherwise one
level pairs adjacent leaves left-to-right into SHA256(left ++ right), where a
falsy right partner is replaced by the left leaf — the source reads the
partner as (leaves[i + 1] || left), so the last leaf is duplicated as its own
partner at odd length, and an empty-string leaf at an odd index is likewise
replaced by its left neighbour — and the construction recurses on that level
(of length ceiling(n/2)) until one hash remains. -/
theorem merkle_root_characterisation :
    Crypto.buildMerkleRoot [] = Crypto.V.litStr "" ∧
    (∀ l : Crypto.V, Crypto.buildMerkleRoot [l] = l) ∧
    (∀ leaves : List Crypto.V, 2 ≤ leaves.length →
      Crypto.buildMerkleRoot leaves = Crypto.buildMerkleRoot (Crypto.pairUp leaves)) ∧
    (∀ leaves : List Crypto.V, (Crypto.pairUp leaves).length = (leaves.length + 1) / 2) ∧
    (∀ (leaves : List Crypto.V) (i : Nat), i < (Crypto.pairUp leaves).length →
      (Crypto.pairUp leaves).getD i (Crypto.V.litStr "") =
        Crypto.V.sha256 (Crypto.V.strAppend
          (leaves.getD (2 * i) (Crypto.V.litStr ""))
          (if 2 * i + 1 < leaves.length then
            (if Crypto.vFalsy (leaves.getD (2 * i + 1) (Crypto.V.litStr "")) then
              leaves.getD (2 * i) (Crypto.V.litStr "")
             else leaves.getD (2 * i + 1) (Crypto.V.litStr ""))
           else leaves.getD (2 * i) (Crypto.V.litStr "")))) :=
  ⟨by rw [Crypto.buildMerkleRoot], fun l => by rw [Crypto.buildMerkleRoot],
    Crypto.buildMerkleRoot_step, Crypto.pairUp_length, Crypto.pairUp_getD⟩

/-- C9 witness: the characterisation applied to the concrete three-leaf list
[a, b, c]: the paired level has two entries, the first pairing a with the
truthy leaf b, the second duplicating the last leaf c; the recursion step
applies at length 3. -/
theorem merkle_root_characterisation_witness :
    2 ≤ ([Crypto.V.litStr "a", Crypto.V.litStr "b", Crypto.V.litStr "c"] : List Crypto.V).length ∧
    0 < (Crypto.pairUp [Crypto.V.litStr "a", Crypto.V.litStr "b", Crypto.V.litStr "c"]).length ∧
    1 < (Crypto.pairUp [Crypto.V.litStr "a", Crypto.V.litStr "b", Crypto.V.litStr "c"]).length ∧
    Crypto.buildMerkleRoot [Crypto.V.litStr "a", Crypto.V.litStr "b", Crypto.V.litStr "c"] =
      Crypto.buildMerkleRoot
        (Crypto.pairUp [Crypto.V.litStr "a", Crypto.V.litStr "b", Crypto.V.litStr "c"]) ∧
    (Crypto.pairUp [Crypto.V.litStr "a", Crypto.V.litStr "b", Crypto.V.litStr "c"]).getD 0
        (Crypto.V.litStr "") =
      Crypto.V.sha256 (Crypto.V.strAppend (Crypto.V.litStr "a") (Crypto.V.litStr "b")) ∧
    (Crypto.pairUp [Crypto.V.litStr "a", Crypto.V.litStr "b", Crypto.V.litStr "c"]).getD 1
        (Crypto.V.litStr "") =
      Crypto.V.sha256 (Crypto.V.strAppend (Crypto.V.litStr "c") (Crypto.V.litStr "c")) := by
  have hlen : (Crypto.pairUp [Crypto.V.litStr "a", Crypto.V.litStr "b",
      Crypto.V.litStr "c"]).length = 2 := by
    simp [Crypto.pairUp]
  refine ⟨by simp, by omega, by omega, merkle_root_characterisation.2.2.1 _ (by simp), ?_, ?_⟩
  · rw [merkle_root_characterisation.2.2.2.2 _ 0 (by omega)]
    simp [Crypto.vFalsy]
  · rw [merkle_root_characterisation.2.2.2.2 _ 1 (by omega)]
    simp

/-! ## Claims C3 and C10: transactional import -/

namespace Crypto

theorem updateMerkleRoot_proofChain (v : Verifier) :
    (updateMerkleRoot v).proofChain = v.proofChain := by
  unfold updateMerkleRoot
  split <;> rfl

theorem import_spec (verifier : Verifier) (proofs : List VerificationProof)
    (merkleRoot : V) :
    (¬ (importAndVerifyChain verifier proofs merkleRoot).1 →
      (importAndVerifyChain verifier proofs merkleRoot).2 = verifier) ∧
    ((importAndVerifyChain verifier proofs merkleRoot).1 →
      (importAndVerifyChain verifier proofs merkleRoot).2.proofChain = proofs ∧
      (importAndVerifyChain verifier proofs merkleRoot).2.currentMerkleRoot =
        some merkleRoot) := by
  simp only [importAndVerifyChain]
  by_cases hs : (updateMerkleRoot { verifier with proofChain := proofs }).currentMerkleRoot
        = some merkleRoot ∧
      (verifyChain (updateMerkleRoot { verifier with proofChain := proofs })).chainIntegrity
  · rw [if_pos hs]
    refine ⟨fun hno => absurd hs hno, fun _ => ⟨?_, hs.1⟩⟩
    rw [updateMerkleRoot_proofChain]
  · rw [if_neg hs]
    exact ⟨fun _ => rfl, fun hyes => absurd hyes hs⟩

end Crypto

/-- C3. importAndVerifyChain is transactional: whenever it returns false the
proof chain and current Merkle root are exactly the pre-call state, and
whenever it returns true the external chain and the recomputed (equal to the
claimed) root are committed. -/
theorem import_rollback_or_commit (verifier : Crypto.Verifier)
    (proofs : List Crypto.VerificationProof) (merkleRoot : Crypto.V) :
    (¬ (Crypto.importAndVerifyChain verifier proofs merkleRoot).1 →
      (Crypto.importAndVerifyChain verifier proofs merkleRoot).2 = verifier) ∧
    ((Crypto.importAndVerifyChain verifier proofs merkleRoot).1 →
      (Crypto.importAndVerifyChain verifier proofs merkleRoot).2.proofChain = proofs ∧
      (Crypto.importAndVerifyChain verifier proofs merkleRoot).2.currentMerkleRoot =
        some merkleRoot) :=
  Crypto.import_spec verifier proofs merkleRoot

/-- C3 witness: importing the empty chain under a non-empty claimed root fails
(the recomputed root of an empty chain is null) and leaves the empty verifier
unchanged. -/
theorem import_rollback_or_commit_witness :
    ¬ (Crypto.importAndVerifyChain Crypto.emptyVerifier [] (Crypto.V.litStr "x")).1 ∧
    (Crypto.importAndVerifyChain Crypto.emptyVerifier [] (Crypto.V.litStr "x")).2 =
      Crypto.emptyVerifier := by
  have hno : ¬ (Crypto.importAndVerifyChain Crypto.emptyVerifier [] (Crypto.V.litStr "x")).1 := by
    simp [Crypto.importAndVerifyChain, Crypto.updateMerkleRoot, Crypto.emptyVerifier]
  exact ⟨hno, (import_rollback_or_commit Crypto.emptyVerifier [] (Crypto.V.litStr "x")).1 hno⟩

/-- C10. The import decision consults only the recomputed Merkle root and the
chainIntegrity flag: any chain matching its claimed root and passing integrity
is imported and committed even when its temporal continuity flag is false. -/
theorem import_ignores_temporal (verifier : Crypto.Verifier)
    (proofs : List Crypto.VerificationProof) (merkleRoot : Crypto.V)
    (hroot : (Crypto.updateMerkleRoot { verifier with proofChain := proofs }).currentMerkleRoot
      = some merkleRoot)
    (hci : (Crypto.verifyChain
      (Crypto.updateMerkleRoot { verifier with proofChain := proofs })).chainIntegrity)
    (_htemp : ¬ (Crypto.verifyChain
      (Crypto.updateMerkleRoot { verifier with proofChain := proofs })).temporalContinuity) :
    (Crypto.importAndVerifyChain verifier proofs merkleRoot).1 ∧
    (Crypto.importAndVerifyChain verifier proofs merkleRoot).2.proofChain = proofs ∧
    (Crypto.importAndVerifyChain verifier proofs merkleRoot).2.currentMerkleRoot =
      some merkleRoot := by
  have h := Crypto.import_spec verifier proofs merkleRoot
  have hs : (Crypto.importAndVerifyChain verifier proofs merkleRoot).1 := ⟨hroot, hci⟩
  exact ⟨hs, (h.2 hs).1, (h.2 hs).2⟩

/-- C10 witness: a two-proof chain with strictly decreasing timestamps (5 then
3) that hashes and links correctly; its temporal continuity flag is false, yet
the import succeeds and commits it. -/
theorem import_ignores_temporal_witness :
    (Crypto.updateMerkleRoot { Crypto.emptyVerifier with
        proofChain := Crypto.declineChain }).currentMerkleRoot = some Crypto.declineRoot ∧
    (Crypto.verifyChain (Crypto.updateMerkleRoot { Crypto.emptyVerifier with
        proofChain := Crypto.declineChain })).chainIntegrity ∧
    ¬ (Crypto.verifyChain (Crypto.updateMerkleRoot { Crypto.emptyVerifier with
        proofChain := Crypto.declineChain })).temporalContinuity ∧
    ((Crypto.importAndVerifyChain Crypto.emptyVerifier Crypto.declineChain
        Crypto.declineRoot).1 ∧
      (Crypto.importAndVerifyChain Crypto.emptyVerifier Crypto.declineChain
        Crypto.declineRoot).2.proofChain = Crypto.declineChain ∧
      (Crypto.importAndVerifyChain Crypto.emptyVerifier Crypto.declineChain
        Crypto.declineRoot).2.currentMerkleRoot = some Crypto.declineRoot) := by
  have h1 : (Crypto.updateMerkleRoot { Crypto.emptyVerifier with
      proofChain := Crypto.declineChain }).currentMerkleRoot = some Crypto.declineRoot := rfl
  have h2 : (Crypto.verifyChain (Crypto.updateMerkleRoot { Crypto.emptyVerifier with
      proofChain := Crypto.declineChain })).chainIntegrity := by
    show (True ∧ Crypto.verifyProof Crypto.tsProof1 ∧
        (∀ q, (none : Option Crypto.VerificationProof) = some q →
          Crypto.tsProof1.previousProofId = some q.id)) ∧
      Crypto.verifyProof Crypto.tsProof2 ∧
      (∀ q, some Crypto.tsProof1 = some q →
        Crypto.tsProof2.previousProofId = some q.id)
    refine ⟨⟨trivial, ⟨rfl, rfl⟩, by simp⟩, ⟨rfl, rfl⟩, ?_⟩
    intro q hq
    rw [← Option.some.inj hq]
    rfl
  have h3 : ¬ (Crypto.verifyChain (Crypto.updateMerkleRoot { Crypto.emptyVerifier with
      proofChain := Crypto.declineChain })).temporalContinuity := by
    intro h
    have hlt := h.2
    exact hlt (show (3 : ℝ) < 5 by norm_num)
  exact ⟨h1, h2, h3, import_ignores_temporal _ _ _ h1 h2 h3⟩

/-! ## Claim C2: the chain integrity flag -/

namespace Crypto

theorem chainIntegrity_foldl (l : List VerificationProof) (acc : ChainScanState) :
    (l.foldl verifyChainStep acc).chainIntegrity ↔
      acc.chainIntegrity ∧ (∀ p ∈ l, verifyProof p) ∧
      (∀ q, acc.previous = some q →
        List.Chain (fun a b => b.previousProofId = some a.id) q l) ∧
      (acc.previous = none →
        List.Chain' (fun a b => b.previousProofId = some a.id) l) := by
  induction l generalizing acc with
  | nil => simp
  | cons p rest ih =>
    rw [List.foldl_cons, ih]
    simp only [verifyChainStep, List.mem_cons, List.chain_cons, Option.some.injEq]
    constructor
    · rintro ⟨⟨hci, hvp, hlink⟩, hall, hchain, _⟩
      refine ⟨hci, ?_, ?_, ?_⟩
      · intro x hx
        rcases hx with rfl | hx
        · exact hvp
        · exact hall x hx
      · intro q hq
        exact ⟨hlink q hq, hchain p rfl⟩
      · intro _
        show List.Chain (fun a b => b.previousProofId = some a.id) p rest
        exact hchain p rfl
    · rintro ⟨hci, hall, hchain, hnone⟩
      refine ⟨⟨hci, hall p (Or.inl rfl), ?_⟩, ?_, ?_, ?_⟩
      · intro q hq
        exact (hchain q hq).1
      · intro x hx
        exact hall x (Or.inr hx)
      · intro q hq
        rcases hq with rfl
        rcases hacc : acc.previous with _ | r
        · exact hnone hacc
        · exact (hchain r hacc).2
      · intro h
        simp at h

end Crypto

/-- C2 counterexample: a single verifying proof whose previousProofId names a
ghost id; the claim requires chainIntegrity to be false for such a chain, but
the loop never checks the first proof, so the flag holds. -/
theorem first_link_unchecked_cex :
    (Crypto.verifyChain Crypto.ghostVerifier).chainIntegrity ∧
    Crypto.ghostVerifier.proofChain.head?.map
      (fun p => p.previousProofId) = some (some "ghost") := by
  constructor
  · show True ∧ Crypto.verifyProof Crypto.ghostProof ∧
      (∀ q, (none : Option Crypto.VerificationProof) = some q →
        Crypto.ghostProof.previousProofId = some q.id)
    exact ⟨trivial, ⟨rfl, rfl⟩, by simp⟩
  · rfl

/-- C2 as amended: chainIntegrity holds exactly when every proof individually
passes verifyProof and every proof after the first has previousProofId equal
to the id of the immediately preceding proof; the first proof carries no
constraint, so a non-null previousProofId on it is never detected. -/
theorem verifyChain_integrity_iff (verifier : Crypto.Verifier) :
    (Crypto.verifyChain verifier).chainIntegrity ↔
      (∀ p ∈ verifier.proofChain, Crypto.verifyProof p) ∧
      List.Chain' (fun a b => b.previousProofId = some a.id) verifier.proofChain := by
  show (verifier.proofChain.foldl Crypto.verifyChainStep
    { chainIntegrity := True, temporalContinuity := True, totalPhiAccumulated := 0,
      previous := none, previousTimestamp := 0 }).chainIntegrity ↔ _
  rw [Crypto.chainIntegrity_foldl]
  simp

/-! ## Claim C8: linkage and root stamping of freshly generated proofs -/

namespace Crypto

theorem updateMerkleRoot_append (v : Verifier) (chain : List VerificationProof)
    (p : VerificationProof) (h : v.proofChain = chain ++ [p]) :
    (updateMerkleRoot v).currentMerkleRoot =
      some (buildMerkleRoot ((chain ++ [p]).map (fun x => x.hash))) := by
  unfold updateMerkleRoot
  split
  · rename_i heq
    rw [heq] at h
    simp at h
  · rw [h]

theorem appendProof_spec (verifier : Verifier) (proof : VerificationProof) :
    ((appendProof verifier proof).1).previousProofId = proof.previousProofId ∧
    ((appendProof verifier proof).1).hash = proof.hash ∧
    ((appendProof verifier proof).1).metadata = proof.metadata ∧
    ((appendProof verifier proof).1).signature = proof.signature ∧
    ((appendProof verifier proof).1).temporalAnchor = proof.temporalAnchor ∧
    ((appendProof verifier proof).1).merkleRoot =
      some (buildMerkleRoot
        ((verifier.proofChain ++ [(appendProof verifier proof).1]).map (fun x => x.hash))) ∧
    ((appendProof verifier proof).2).proofChain =
      verifier.proofChain ++ [(appendProof verifier proof).1] := by
  refine ⟨rfl, rfl, rfl, rfl, rfl, ?_, rfl⟩
  show (updateMerkleRoot
      { verifier with proofChain := verifier.proofChain ++ [proof] }).currentMerkleRoot = _
  rw [updateMerkleRoot_append _ verifier.proofChain proof rfl]
  simp only [List.map_append, List.map_cons, List.map_nil]
  rfl

theorem generated_spec (v : Verifier) (p : VerificationProof) (v2 : Verifier)
    (h : GeneratedBy v p v2) :
    p.previousProofId = orNullId v.proofChain.getLast? ∧
    p.hash = generateHash p.metadata ∧
    p.signature = generateSignature p.hash p.temporalAnchor ∧
    p.merkleRoot = some (buildMerkleRoot ((v.proofChain ++ [p]).map (fun x => x.hash))) ∧
    v2.proofChain = v.proofChain ++ [p] := by
  rcases h with ⟨ctx, a, b, c, heq⟩ | ⟨ctx, a, b, c, d, e, heq⟩ |
    ⟨ctx, a, b, c, d, e, heq⟩ | ⟨ctx, a, b, c, d, e, heq⟩
  · have hp : p = (Prod.fst (p, v2)) := rfl
    rw [← heq] at hp
    have hv2 : v2 = (Prod.snd (p, v2)) := rfl
    rw [← heq] at hv2
    subst hp
    subst hv2
    refine ⟨rfl, rfl, rfl, ?_, rfl⟩
    unfold generateConsciousnessProof
    exact (appendProof_spec v _).2.2.2.2.2.1
  · have hp : p = (Prod.fst (p, v2)) := rfl
    rw [← heq] at hp
    have hv2 : v2 = (Prod.snd (p, v2)) := rfl
    rw [← heq] at hv2
    subst hp
    subst hv2
    refine ⟨rfl, rfl, rfl, ?_, rfl⟩
    unfold generateDecisionProof
    exact (appendProof_spec v _).2.2.2.2.2.1
  · have hp : p = (Prod.fst (p, v2)) := rfl
    rw [← heq] at hp
    have hv2 : v2 = (Prod.snd (p, v2)) := rfl
    rw [← heq] at hv2
    subst hp
    subst hv2
    refine ⟨rfl, rfl, rfl, ?_, rfl⟩
    unfold generateEvolutionProof
    exact (appendProof_spec v _).2.2.2.2.2.1
  · have hp : p = (Prod.fst (p, v2)) := rfl
    rw [← heq] at hp
    have hv2 : v2 = (Prod.snd (p, v2)) := rfl
    rw [← heq] at hv2
    subst hp
    subst hv2
    refine ⟨rfl, rfl, rfl, ?_, rfl⟩
    unfold generateNetworkProof
    exact (appendProof_spec v _).2.2.2.2.2.1

end Crypto

/-- C8 counterexample: a verifier whose last proof has the empty string as id.
The claim requires the next generated previousProofId to equal that id, but
the JavaScript expression (previousProof?.id || null) treats the empty string
as falsy and stores null instead. -/
theorem empty_id_linkage_cex :
    ((Crypto.generateDecisionProof ⟨"d-1", 1, 1⟩ "d" "c" "o" 1 1
        Crypto.emptyIdVerifier).1).previousProofId ≠
      Crypto.emptyIdVerifier.proofChain.getLast?.map (fun q => q.id) ∧
    Crypto.emptyIdVerifier.proofChain.getLast?.map (fun q => q.id) = some "" := by
  constructor
  · intro hcontra
    exact Option.noConfusion (show (none : Option String) = some "" from hcontra)
  · rfl

/-- C8 as amended: immediately after any proof-generation call, the new proof
links to the id of the proof that was last before the call — with null both
when the chain was empty and in the corner case where that id is the empty
string, which JavaScript truthiness also maps to null — and its merkleRoot is
the Merkle root over all proof hashes including its own; the call appends
exactly the new proof. -/
theorem proof_append_linkage (v : Crypto.Verifier) (p : Crypto.VerificationProof)
    (v2 : Crypto.Verifier) (h : Crypto.GeneratedBy v p v2) :
    (v.proofChain = [] → p.previousProofId = none) ∧
    (∀ q, v.proofChain.getLast? = some q → q.id ≠ "" →
      p.previousProofId = some q.id) ∧
    (∀ q, v.proofChain.getLast? = some q → q.id = "" →
      p.previousProofId = none) ∧
    p.merkleRoot = some (Crypto.buildMerkleRoot
      ((v.proofChain ++ [p]).map (fun x => x.hash))) ∧
    v2.proofChain = v.proofChain ++ [p] := by
  obtain ⟨h1, _, _, h4, h5⟩ := Crypto.generated_spec v p v2 h
  refine ⟨?_, ?_, ?_, h4, h5⟩
  · intro hc
    rw [h1, hc]
    rfl
  · intro q hq hne
    rw [h1, hq]
    simp [Crypto.orNullId, hne]
  · intro q hq he
    rw [h1, hq]
    simp [Crypto.orNullId, he]

/-- C8 witness: a consciousness proof generated on the empty verifier; its
previousProofId is null and its merkleRoot covers its own hash. -/
theorem proof_append_linkage_witness :
    Crypto.GeneratedBy Crypto.emptyVerifier Crypto.witnessProof Crypto.witnessVerifier ∧
    ((Crypto.emptyVerifier.proofChain = [] →
        Crypto.witnessProof.previousProofId = none) ∧
      (∀ q, Crypto.emptyVerifier.proofChain.getLast? = some q → q.id ≠ "" →
        Crypto.witnessProof.previousProofId = some q.id) ∧
      (∀ q, Crypto.emptyVerifier.proofChain.getLast? = some q → q.id = "" →
        Crypto.witnessProof.previousProofId = none) ∧
      Crypto.witnessProof.merkleRoot = some (Crypto.buildMerkleRoot
        ((Crypto.emptyVerifier.proofChain ++ [Crypto.witnessProof]).map (fun x => x.hash))) ∧
      Crypto.witnessVerifier.proofChain =
        Crypto.emptyVerifier.proofChain ++ [Crypto.witnessProof]) :=
  have hgen : Crypto.GeneratedBy Crypto.emptyVerifier Crypto.witnessProof
      Crypto.witnessVerifier :=
    Or.inl ⟨Crypto.witnessCtx, Crypto.witnessPhiResult, "agent", [], rfl⟩
  ⟨hgen, proof_append_linkage Crypto.emptyVerifier Crypto.witnessProof
    Crypto.witnessVerifier hgen⟩

/-! ## Claim C1: canonical hashing under metadata mutation -/

namespace Crypto

theorem findField_cons (kv : String × V) (rest : List (String × V)) (k : String) :
    findField (kv :: rest) k = if kv.1 = k then some kv else findField rest k := by
  by_cases h : kv.1 = k
  · simp [findField, List.find?_cons_of_pos, h]
  · simp [findField, List.find?_cons_of_neg, h]

theorem findField_eq_none {fields : List (String × V)} {k : String} :
    findField fields k = none ↔ k ∉ fields.map Prod.fst := by
  unfold findField
  rw [List.find?_eq_none]
  simp only [List.mem_map, not_exists, decide_eq_true_eq]
  aesop

theorem findField_key {fields : List (String × V)} {k : String} {kv : String × V}
    (h : findField fields k = some kv) : kv.1 = k := by
  have := List.find?_some h
  simpa using this

theorem mem_keys_of_findField {fields : List (String × V)} {k : String}
    {kv : String × V} (h : findField fields k = some kv) :
    k ∈ fields.map Prod.fst := by
  have h1 := List.mem_of_find?_eq_some h
  have h2 := findField_key h
  rw [← h2]
  exact List.mem_map_of_mem Prod.fst h1

theorem setField_keys : ∀ (fields : List (String × V)) (k : String) (w : V),
    k ∈ fields.map Prod.fst →
    (setField fields k w).map Prod.fst = fields.map Prod.fst
  | [], k, w => by simp
  | (k0, v0) :: rest, k, w => by
    intro hmem
    by_cases h : k0 = k
    · simp [setField, h]
    · have : k ∈ rest.map Prod.fst := by
        simp at hmem
        rcases hmem with h1 | h1
        · exact absurd h1.symm h
        · simpa [List.mem_map] using h1
      simp [setField, h, setField_keys rest k w this]

theorem findField_setField_self : ∀ (fields : List (String × V)) (k : String) (w : V),
    k ∈ fields.map Prod.fst →
    findField (setField fields k w) k = some (k, w)
  | [], k, w => by simp
  | (k0, v0) :: rest, k, w => by
    intro hmem
    by_cases h : k0 = k
    · subst h
      simp [setField, findField_cons]
    · have : k ∈ rest.map Prod.fst := by
        simp at hmem
        rcases hmem with h1 | h1
        · exact absurd h1.symm h
        · simpa [List.mem_map] using h1
      simp [setField, h, findField_cons, findField_setField_self rest k w this]

theorem findField_setField_ne : ∀ (fields : List (String × V)) (k w1 : String) (w : V),
    w1 ≠ k → findField (setField fields k w) w1 = findField fields w1
  | [], k, w1, w => by
    intro h
    show findField [(k, w)] w1 = findField [] w1
    rw [findField_cons, if_neg (fun hc => h hc.symm)]
  | (k0, v0) :: rest, k, w1, w => by
    intro h
    by_cases hk : k0 = k
    · subst hk
      have hcond : ¬ (k0 = w1) := fun hc => h hc.symm
      rw [show setField ((k0, v0) :: rest) k0 w = (k0, w) :: rest from by simp [setField]]
      rw [findField_cons, findField_cons, if_neg hcond, if_neg hcond]
    · simp only [setField, if_neg hk, findField_cons]
      rw [findField_setField_ne rest k w1 w h]

theorem applyReplacer_atomic (v : V) (h : isAtomic v) (allowed : List String) :
    applyReplacer allowed v = v := by
  cases v <;> simp [applyReplacer, isAtomic] at h ⊢

theorem mem_sortKeys {k : String} {ks : List String} :
    k ∈ sortKeys ks ↔ k ∈ ks :=
  (List.mergeSort_perm ks _).mem_iff

theorem applyFields_cons_some {fields : List (String × V)} {k0 : String}
    {kv : String × V} (allowed ks : List String)
    (h : findField fields k0 = some kv) :
    applyFields allowed (k0 :: ks) fields =
      (k0, applyReplacer allowed kv.2) :: applyFields allowed ks fields := by
  simp only [applyFields]
  split
  · rename_i kv2 hkv2
    rw [h] at hkv2
    rw [Option.some.inj hkv2]
  · rename_i hnone
    rw [h] at hnone
    cases hnone

theorem applyFields_cons_none {fields : List (String × V)} {k0 : String}
    (allowed ks : List String) (h : findField fields k0 = none) :
    applyFields allowed (k0 :: ks) fields = applyFields allowed ks fields := by
  simp only [applyFields]
  split
  · rename_i kv2 hkv2
    rw [h] at hkv2
    cases hkv2
  · rfl

theorem findField_applyFields (allowed : List String) (fields : List (String × V))
    (k : String) : ∀ ks : List String,
    findField (applyFields allowed ks fields) k =
      if k ∈ ks then
        (findField fields k).map (fun kv => (k, applyReplacer allowed kv.2))
      else none
  | [] => by simp [applyFields, findField]
  | k0 :: ks => by
    have ih := findField_applyFields allowed fields k ks
    rcases h0 : findField fields k0 with _ | kv
    · rw [applyFields_cons_none allowed ks h0, ih]
      by_cases hk : k = k0
      · subst hk
        rw [h0]
        simp
      · simp [List.mem_cons, hk]
    · rw [applyFields_cons_some allowed ks h0, findField_cons]
      by_cases hk : k0 = k
      · subst hk
        rw [if_pos rfl, h0]
        simp
      · rw [if_neg hk, ih]
        have hne : ¬ (k = k0) := fun hc => hk hc.symm
        simp [List.mem_cons, hne]

theorem applyFields_congr (allowed : List String) (f1 f2 : List (String × V))
    (hvals : ∀ k, (findField f1 k).map (fun kv => applyReplacer allowed kv.2) =
      (findField f2 k).map (fun kv => applyReplacer allowed kv.2)) :
    ∀ ks : List String, applyFields allowed ks f1 = applyFields allowed ks f2
  | [] => by simp [applyFields]
  | k0 :: ks => by
    have ih := applyFields_congr allowed f1 f2 hvals ks
    have hv := hvals k0
    rcases h1 : findField f1 k0 with _ | kv1 <;> rcases h2 : findField f2 k0 with _ | kv2 <;>
      rw [h1, h2] at hv
    · rw [applyFields_cons_none allowed ks h1, applyFields_cons_none allowed ks h2, ih]
    · simp at hv
    · simp at hv
    · simp only [Option.map_some', Option.some.injEq] at hv
      rw [applyFields_cons_some allowed ks h1, applyFields_cons_some allowed ks h2, ih, hv]

theorem applyFields_nil (allowed : List String) (fields : List (String × V)) :
    ∀ ks : List String, (∀ k ∈ ks, findField fields k = none) →
    applyFields allowed ks fields = []
  | [] => by
    intro _
    simp [applyFields]
  | k0 :: ks => by
    intro h
    rw [applyFields_cons_none allowed ks (h k0 (List.mem_cons_self k0 ks))]
    exact applyFields_nil allowed fields ks (fun k hk => h k (List.mem_cons_of_mem k0 hk))

end Crypto

namespace Crypto

theorem generateHash_obj (data : List (String × V)) :
    generateHash data = V.sha256 (V.obj
      (applyFields (sortKeys (data.map Prod.fst)) (sortKeys (data.map Prod.fst)) data)) := by
  unfold generateHash
  congr 1
  simp [applyReplacer]

theorem generateHash_congr (f1 f2 : List (String × V))
    (hkeys : f1.map Prod.fst = f2.map Prod.fst)
    (hvals : ∀ k, (findField f1 k).map
        (fun kv => applyReplacer (sortKeys (f2.map Prod.fst)) kv.2) =
      (findField f2 k).map (fun kv => applyReplacer (sortKeys (f2.map Prod.fst)) kv.2)) :
    generateHash f1 = generateHash f2 := by
  rw [generateHash_obj, generateHash_obj, hkeys]
  congr 2
  exact applyFields_congr _ f1 f2 hvals _

theorem generateHash_ne_of_atomic_change (fields : List (String × V)) (k : String)
    (kv : String × V) (w : V) (hfind : findField fields k = some kv)
    (ha : isAtomic kv.2) (hw : isAtomic w) (hne : w ≠ kv.2) :
    generateHash (setField fields k w) ≠ generateHash fields := by
  intro he
  have hmem : k ∈ fields.map Prod.fst := mem_keys_of_findField hfind
  have hkeys := setField_keys fields k w hmem
  rw [generateHash_obj, generateHash_obj, hkeys] at he
  have hfl := V.obj.inj (V.sha256.inj he)
  have hx := congrArg (fun l => findField l k) hfl
  simp only at hx
  rw [findField_applyFields, findField_applyFields] at hx
  have hkA : k ∈ sortKeys (fields.map Prod.fst) := mem_sortKeys.mpr hmem
  rw [if_pos hkA, if_pos hkA, findField_setField_self fields k w hmem, hfind] at hx
  simp only [Option.map_some', Option.some.injEq, Prod.mk.injEq, true_and] at hx
  rw [applyReplacer_atomic w hw, applyReplacer_atomic kv.2 ha] at hx
  exact hne hx

theorem verifyProof_atomic_mutation (p : VerificationProof)
    (hp : p.hash = generateHash p.metadata) (k : String) (kv : String × V) (w : V)
    (hfind : findField p.metadata k = some kv) (ha : isAtomic kv.2)
    (hw : isAtomic w) (hne : w ≠ kv.2) :
    ¬ verifyProof { p with metadata := setField p.metadata k w } := by
  intro hv
  have h1 := hv.1
  rw [hp] at h1
  exact generateHash_ne_of_atomic_change p.metadata k kv w hfind ha hw hne h1

theorem consciousness_nested_hash_eq (ctx : GenCtx) (phiResult : IIT.PhiResult)
    (agentId : String) (np il : ℝ) :
    generateHash (setField (consciousnessProofData ctx phiResult agentId [])
      "partitionInfo"
      (V.obj [("numPartitions", V.num np), ("integrationLevel", V.num il)])) =
    generateHash (consciousnessProofData ctx phiResult agentId []) := by
  have hkeysval : (consciousnessProofData ctx phiResult agentId []).map Prod.fst =
      ["phi", "integratedInformation", "causeRepertoireHash", "effectRepertoireHash",
       "partitionInfo", "agentId", "timestamp", "temporalAnchor"] := rfl
  have hmem : "partitionInfo" ∈ (consciousnessProofData ctx phiResult agentId []).map Prod.fst := by
    rw [hkeysval]
    simp
  have hnilPI : ∀ pif : List (String × V), pif.map Prod.fst =
      ["numPartitions", "integrationLevel"] →
      applyFields (sortKeys ((consciousnessProofData ctx phiResult agentId []).map Prod.fst))
        (sortKeys ((consciousnessProofData ctx phiResult agentId []).map Prod.fst)) pif = [] := by
    intro pif hpif
    apply applyFields_nil
    intro k hk
    rw [findField_eq_none, hpif]
    have hk8 : k ∈ ["phi", "integratedInformation", "causeRepertoireHash",
        "effectRepertoireHash", "partitionInfo", "agentId", "timestamp",
        "temporalAnchor"] := by
      rw [← hkeysval]
      exact mem_sortKeys.mp hk
    simp only [List.mem_cons, List.not_mem_nil, or_false] at hk8 ⊢
    rcases hk8 with rfl | rfl | rfl | rfl | rfl | rfl | rfl | rfl <;> simp
  apply generateHash_congr
  · exact setField_keys _ _ _ hmem
  · intro k
    by_cases hk : k = "partitionInfo"
    · subst hk
      rw [findField_setField_self _ _ _ hmem]
      rw [show findField (consciousnessProofData ctx phiResult agentId [])
          "partitionInfo" = some ("partitionInfo",
            V.obj [("numPartitions", V.num (phiResult.partitionInfo.numPartitions : ℝ)),
              ("integrationLevel", V.num phiResult.partitionInfo.integrationLevel)])
          from rfl]
      simp only [Option.map_some', Option.some.injEq, Prod.mk.injEq, true_and]
      simp only [applyReplacer]
      rw [hnilPI [("numPartitions", V.num np), ("integrationLevel", V.num il)] rfl,
        hnilPI [("numPartitions", V.num (phiResult.partitionInfo.numPartitions : ℝ)),
          ("integrationLevel", V.num phiResult.partitionInfo.integrationLevel)] rfl]
    · rw [findField_setField_ne _ _ _ _ hk]

end Crypto

/-- C1 counterexample: a freshly generated consciousness proof whose metadata
is mutated only inside the partitionInfo sub-object (both nested fields set to
99). The replacer array used by the canonical serialisation contains only
top-level keys, so the nested keys are dropped and verifyProof still accepts
the mutated proof, although its metadata genuinely differs. -/
theorem nested_metadata_tamper_cex :
    Crypto.verifyProof Crypto.tamperedProof ∧
    Crypto.tamperedProof.metadata ≠ Crypto.witnessProof.metadata := by
  constructor
  · constructor
    · show Crypto.generateHash (Crypto.setField
          (Crypto.consciousnessProofData Crypto.witnessCtx Crypto.witnessPhiResult "agent" [])
          "partitionInfo"
          (Crypto.V.obj [("numPartitions", Crypto.V.num 99),
            ("integrationLevel", Crypto.V.num 99)])) = Crypto.witnessProof.hash
      rw [Crypto.consciousness_nested_hash_eq]
      rfl
    · rfl
  · intro h
    have hL : Crypto.tamperedProof.metadata =
        [("phi", Crypto.V.num 1), ("integratedInformation", Crypto.V.num 1),
         ("causeRepertoireHash", Crypto.hashArray [1]),
         ("effectRepertoireHash", Crypto.hashArray [1]),
         ("partitionInfo", Crypto.V.obj [("numPartitions", Crypto.V.num 99),
            ("integrationLevel", Crypto.V.num 99)]),
         ("agentId", Crypto.V.litStr "agent"), ("timestamp", Crypto.V.num 100),
         ("temporalAnchor", Crypto.V.num (5 * 1000000))] := rfl
    have hR : Crypto.witnessProof.metadata =
        [("phi", Crypto.V.num 1), ("integratedInformation", Crypto.V.num 1),
         ("causeRepertoireHash", Crypto.hashArray [1]),
         ("effectRepertoireHash", Crypto.hashArray [1]),
         ("partitionInfo", Crypto.V.obj [("numPartitions", Crypto.V.num ((1 : ℕ) : ℝ)),
            ("integrationLevel", Crypto.V.num 1)]),
         ("agentId", Crypto.V.litStr "agent"), ("timestamp", Crypto.V.num 100),
         ("temporalAnchor", Crypto.V.num (5 * 1000000))] := rfl
    rw [hL, hR] at h
    simp only [List.cons.injEq, Prod.mk.injEq, Crypto.V.obj.injEq,
      Crypto.V.num.injEq, true_and, and_true] at h
    norm_num at h

/-- C1 as amended: for every proof returned by any of the four generators,
mutating any top-level metadata field holding an atomic value (a number,
string or boolean — not an object or array) to a different value makes
verifyProof return false; but a mutation confined to the fields nested inside
the partitionInfo sub-object of a consciousness proof leaves the canonical
serialisation unchanged — its keys are not in the top-level replacer list —
and verifyProof still returns true. -/
theorem metadata_tamper_detection :
    (∀ (v : Crypto.Verifier) (p : Crypto.VerificationProof) (v2 : Crypto.Verifier),
      Crypto.GeneratedBy v p v2 →
      ∀ (k : String) (kv : String × Crypto.V) (w : Crypto.V),
        Crypto.findField p.metadata k = some kv →
        Crypto.isAtomic kv.2 → Crypto.isAtomic w → w ≠ kv.2 →
        ¬ Crypto.verifyProof { p with metadata := Crypto.setField p.metadata k w }) ∧
    (∀ (ctx : Crypto.GenCtx) (phiResult : IIT.PhiResult) (agentId : String)
      (verifier : Crypto.Verifier) (np il : ℝ),
      Crypto.verifyProof
        { (Crypto.generateConsciousnessProof ctx phiResult agentId [] verifier).1 with
          metadata := Crypto.setField
            ((Crypto.generateConsciousnessProof ctx phiResult agentId [] verifier).1).metadata
            "partitionInfo"
            (Crypto.V.obj [("numPartitions", Crypto.V.num np),
              ("integrationLevel", Crypto.V.num il)]) }) := by
  constructor
  · intro v p v2 hgen k kv w hfind ha hw hne
    exact Crypto.verifyProof_atomic_mutation p
      (Crypto.generated_spec v p v2 hgen).2.1 k kv w hfind ha hw hne
  · intro ctx phiResult agentId verifier np il
    constructor
    · show Crypto.generateHash (Crypto.setField
          (Crypto.consciousnessProofData ctx phiResult agentId [])
          "partitionInfo"
          (Crypto.V.obj [("numPartitions", Crypto.V.num np),
            ("integrationLevel", Crypto.V.num il)])) =
        ((Crypto.generateConsciousnessProof ctx phiResult agentId [] verifier).1).hash
      rw [Crypto.consciousness_nested_hash_eq]
      rfl
    · rfl

/-- C1 witness: the amended theorem applied to a concrete generated proof; a
top-level mutation of the agentId field is rejected by verifyProof, while the
nested partitionInfo mutation of the counterexample is accepted. -/
theorem metadata_tamper_detection_witness :
    Crypto.GeneratedBy Crypto.emptyVerifier Crypto.witnessProof Crypto.witnessVerifier ∧
    Crypto.findField Crypto.witnessProof.metadata "agentId" =
      some ("agentId", Crypto.V.litStr "agent") ∧
    Crypto.isAtomic (Crypto.V.litStr "agent") ∧
    Crypto.isAtomic (Crypto.V.litStr "evil") ∧
    Crypto.V.litStr "evil" ≠ Crypto.V.litStr "agent" ∧
    (¬ Crypto.verifyProof { Crypto.witnessProof with
      metadata := Crypto.setField Crypto.witnessProof.metadata "agentId"
        (Crypto.V.litStr "evil") }) ∧
    Crypto.verifyProof
      { (Crypto.generateConsciousnessProof Crypto.witnessCtx Crypto.witnessPhiResult
          "agent" [] Crypto.emptyVerifier).1 with
        metadata := Crypto.setField
          ((Crypto.generateConsciousnessProof Crypto.witnessCtx Crypto.witnessPhiResult
            "agent" [] Crypto.emptyVerifier).1).metadata
          "partitionInfo"
          (Crypto.V.obj [("numPartitions", Crypto.V.num 7),
            ("integrationLevel", Crypto.V.num 7)]) } :=
  have hgen : Crypto.GeneratedBy Crypto.emptyVerifier Crypto.witnessProof
      Crypto.witnessVerifier :=
    Or.inl ⟨Crypto.witnessCtx, Crypto.witnessPhiResult, "agent", [], rfl⟩
  have hfind : Crypto.findField Crypto.witnessProof.metadata "agentId" =
      some ("agentId", Crypto.V.litStr "agent") := rfl
  have hne : Crypto.V.litStr "evil" ≠ Crypto.V.litStr "agent" := by
    intro h
    exact absurd (Crypto.V.litStr.inj h) (by decide)
  ⟨hgen, hfind, trivial, trivial, hne,
    metadata_tamper_detection.1 Crypto.emptyVerifier Crypto.witnessProof
      Crypto.witnessVerifier hgen "agentId" ("agentId", Crypto.V.litStr "agent")
      (Crypto.V.litStr "evil") hfind trivial trivial hne,
    metadata_tamper_detection.2 Crypto.witnessCtx Crypto.witnessPhiResult "agent"
      Crypto.emptyVerifier 7 7⟩

end SC
